import Mathlib

/-! pllama: model cache, model-file check and the inference entry point.

A shallow embedding of three pieces of the pllama sources:

* `TokenizerManager` (src/pllama_tokenize.cpp): the cache of loaded model
  handles with its 30 minute expiry and its eviction by `last_access`;
* `verify_model_file` (src/pllama.cpp): the GGUF header check;
* `pllama_inference_sync` (src/pllama.cpp): the staged load, prompt
  ingestion and token generation loop, with the process-wide
  `model_loading_in_progress` flag;
* `pllama_inference_export` (src/pllama_wasm_entry.cpp): the wrapper that
  builds the request from its arguments.

Calls into the inference engine, the file system, the sampler and the
cancellation registry are external: their answers are inputs of the model and
the calls made are recorded in a trace.
-/

set_option autoImplicit false

namespace TokenizerManager

/-! ## Data model of the cache -/

/-- Number of `steady_clock` ticks in one minute (the clock counts nanoseconds). -/
def TICKS_PER_MINUTE : Int := 60000000000

/-- Capacity of the cache, `MAX_CACHED_MODELS`. -/
def MAX_CACHED_MODELS : Nat := 5

/-- Lifetime of an entry in minutes, `MODEL_CACHE_DURATION = std::chrono::minutes(30)`. -/
def MODEL_CACHE_DURATION : Int := 30

/-- Modulus of `size_t` arithmetic, the type of `total_cached_models`. -/
def SIZE_MODULUS : Nat := 18446744073709551616

/-- One cache entry. `model` is the shared pointer: `none` is `nullptr`, `some p`
is the handle owning the raw engine pointer `p`. Time points are clock ticks. -/
structure ModelCacheEntry where
  model : Option Nat
  last_access : Int
  created_at : Int
deriving DecidableEq, Repr

/-- The mutable members of the manager: the map `model_cache`, kept as the list of
its (key, value) pairs in iteration order, and the counter `total_cached_models`. -/
structure Manager where
  model_cache : List (String × ModelCacheEntry)
  total_cached_models : Nat
deriving DecidableEq, Repr

/-- The manager as constructed: empty map, counter 0. -/
def Manager.empty : Manager := ⟨[], 0⟩

/-- Answers of the outside world to one `loadModelWithCache`: whether the
`ifstream` on the path is good, and the raw pointer that
`llama_model_load_from_file` yields (`none` for a null pointer). -/
structure LoadAnswers where
  file_good : Bool
  raw_model : Option Nat
deriving DecidableEq, Repr

/-- External calls made by the manager, in the order they are made. -/
inductive EngineCall where
  | ifstream_open (path : String)
  | llama_log_set
  | llama_backend_init
  | llama_model_load_from_file (path : String)
  | llama_backend_free
deriving DecidableEq, Repr

/-- What one `getOrLoadModel` call produces: the returned shared pointer, the
manager afterwards and the external calls it made. -/
structure CallResult where
  ret : Option Nat
  manager : Manager
  calls : List EngineCall
deriving DecidableEq, Repr

/-! ## Operations -/

/-- The lookup `model_cache.find(model_path)`: the entry stored under the key, if any. -/
def find (cache : List (String × ModelCacheEntry)) (model_path : String) :
    Option ModelCacheEntry :=
  (cache.find? (fun p => p.1 == model_path)).map (fun p => p.2)

/-- The check `isModelCacheValid`: the age since creation, cast to whole minutes
(`duration_cast` truncates toward zero), is compared with 30 minutes. -/
def isModelCacheValid (entry : ModelCacheEntry) (now : Int) : Bool :=
  let age := Int.tdiv (now - entry.created_at) TICKS_PER_MINUTE
  decide (age < MODEL_CACHE_DURATION)

/-- The scan of `std::min_element` with the comparator
`a.second.last_access < b.second.last_access`: `i` is the position of the next
element, `best_idx` and `best` are the position and `last_access` of the smallest
element seen so far; a later element replaces it only when strictly smaller. -/
def min_element_go :
    List (String × ModelCacheEntry) → Nat → Nat → Int → Nat
  | [], _, best_idx, _ => best_idx
  | x :: xs, i, best_idx, best =>
      if x.2.last_access < best then min_element_go xs (i + 1) i x.2.last_access
      else min_element_go xs (i + 1) best_idx best

/-- Position returned by `std::min_element(model_cache.begin(), model_cache.end(), ...)`;
`none` stands for `end()`, returned on an empty map. -/
def min_element : List (String × ModelCacheEntry) → Option Nat
  | [] => none
  | x :: xs => some (min_element_go xs 1 0 x.2.last_access)

/-- The decrement `total_cached_models--` on a `size_t`. -/
def size_dec (n : Nat) : Nat := (n + SIZE_MODULUS - 1) % SIZE_MODULUS

/-- The increment `total_cached_models++` on a `size_t`. -/
def size_inc (n : Nat) : Nat := (n + 1) % SIZE_MODULUS

/-- The method `evictOldestModel`: erase the element `min_element` points at and
decrement the counter; nothing happens on an empty map. -/
def evictOldestModel (m : Manager) : Manager :=
  match min_element m.model_cache with
  | some i =>
      { model_cache := m.model_cache.eraseIdx i,
        total_cached_models := size_dec m.total_cached_models }
  | none => m

/-- The assignment `model_cache[model_path] = value`: the value of an existing key
is overwritten in place, a new key gets a new element. -/
def assign (cache : List (String × ModelCacheEntry)) (model_path : String)
    (value : ModelCacheEntry) : List (String × ModelCacheEntry) :=
  if cache.any (fun p => p.1 == model_path) then
    cache.map (fun p => if p.1 == model_path then (p.1, value) else p)
  else (model_path, value) :: cache

/-- The method `loadModelWithCache`. -/
def loadModelWithCache (m : Manager) (model_path : String) (now : Int)
    (w : LoadAnswers) : CallResult :=
  if !w.file_good then
    { ret := none, manager := m, calls := [.ifstream_open model_path] }
  else
    let calls := [.ifstream_open model_path, .llama_log_set, .llama_backend_init,
      .llama_model_load_from_file model_path, .llama_backend_free]
    match w.raw_model with
    | none => { ret := none, manager := m, calls := calls }
    | some raw =>
        let model : Option Nat := some raw
        let m1 :=
          if m.total_cached_models ≥ MAX_CACHED_MODELS then evictOldestModel m else m
        let m2 : Manager :=
          { model_cache := assign m1.model_cache model_path ⟨model, now, now⟩,
            total_cached_models := size_inc m1.total_cached_models }
        { ret := model, manager := m2, calls := calls }

/-- The hit branch of `getOrLoadModel`: `entry.last_access = now` on the found element. -/
def touch (cache : List (String × ModelCacheEntry)) (model_path : String)
    (now : Int) : List (String × ModelCacheEntry) :=
  cache.map (fun p => if p.1 == model_path then (p.1, { p.2 with last_access := now }) else p)

/-- The method `getOrLoadModel`, `now` being the value of `steady_clock::now()`
read under the lock. -/
def getOrLoadModel (m : Manager) (model_path : String) (now : Int)
    (w : LoadAnswers) : CallResult :=
  match find m.model_cache model_path with
  | some entry =>
      if isModelCacheValid entry now then
        { ret := entry.model,
          manager := { m with model_cache := touch m.model_cache model_path now },
          calls := [] }
      else loadModelWithCache m model_path now w
  | none => loadModelWithCache m model_path now w

/-- One call of `getOrLoadModel` as seen from outside: its arguments and the
answers of the outside world. -/
structure Call where
  model_path : String
  now : Int
  answers : LoadAnswers
deriving DecidableEq, Repr

/-- The manager after a sequence of `getOrLoadModel` calls. -/
def run (m : Manager) : List Call → Manager
  | [] => m
  | c :: cs => run (getOrLoadModel m c.model_path c.now c.answers).manager cs

end TokenizerManager

/-! ## The GGUF header check -/

/-- The function `verify_model_file(path, detailed_check)`. The argument is what
the file system holds at `path`: `none` when the stream cannot be opened,
otherwise the bytes of the file. Bytes 71, 71, 85, 70 spell `GGUF`. The
detailed check only reads and prints the version and changes no result. -/
def verify_model_file (file : Option (List Nat)) (detailed_check : Bool) : Bool :=
  match file with
  | none => false
  | some bytes =>
      let size := bytes.length
      if size < 32 then false
      else
        let header := bytes.take 4
        let valid_header :=
          header[0]? == some 71 && header[1]? == some 71 &&
          header[2]? == some 85 && header[3]? == some 70
        if !valid_header then false
        else if detailed_check then true
        else true

namespace Pllama

/-! ## Data model of the inference entry point -/

/-- A C `float` field of the request, kept as its bit pattern: the model never
computes with it, it only hands it to the sampler. -/
structure CFloat where
  bits : Nat
deriving DecidableEq, Repr

/-- The struct `pllama_inference_request`. Pointer fields are options (`none` is
`NULL`); `dart_logger` only records whether the logger pointer is set. -/
structure pllama_inference_request where
  request_id : Int
  context_size : Int
  input : Option String
  max_tokens : Int
  model_path : Option String
  model_mmproj_path : Option String
  num_gpu_layers : Int
  num_threads : Int
  temperature : CFloat
  top_p : CFloat
  penalty_freq : CFloat
  penalty_repeat : CFloat
  grammar : Option String
  eos_token : Option String
  dart_logger : Bool

/-- An exception travelling out of the `try` block: one derived from
`std::exception` with its `what()` text, or anything else. -/
inductive Exn where
  | std_exception (what : String)
  | other
deriving DecidableEq, Repr

/-- Everything outside the function that it consults. Each field is the answer
the named call gives in this run. -/
structure World where
  /-- compiled for Android or iOS -/
  mobile : Bool
  /-- contents of the file at a path, `none` when it cannot be opened -/
  file : String → Option (List Nat)
  /-- exception thrown by the k-th external call made inside the `try` block -/
  fault : Nat → Option Exn
  /-- result of `prompt_contains_image(request.input)` -/
  prompt_contains_image : String → Bool
  /-- result of `remove_all_images_from_prompt(request.input, "")` -/
  remove_all_images_from_prompt : String → String
  /-- the vocabulary-only `llama_model_load_from_file` gave a model -/
  vocab_model : Bool
  /-- the full `llama_model_load_from_file` gave a model -/
  full_model : Bool
  /-- the call `llama_init_from_model` gave a context -/
  context : Bool
  /-- the call `clip_model_load` gave a handle -/
  clip : Bool
  /-- the vector of `llava_image_embed_make_with_prompt_base64`: per element, is it non-null -/
  image_embeddings : List Bool
  /-- value of `llama_n_ctx(ctx)` -/
  n_ctx : Int
  /-- the call `llama_model_get_vocab` gave a vocabulary -/
  vocab : Bool
  /-- minus the result of the counting `llama_tokenize` on the prompt -/
  n_prompt_tokens : String → Int
  /-- result of the filling `llama_tokenize` on the prompt -/
  tokenize : String → Int
  /-- cells in use, read by `add_tokens_to_context` for the prompt -/
  kv_used_prompt : Int
  /-- the `llama_decode` of the prompt batch failed -/
  prompt_decode_fails : Bool
  /-- result of `pllama_get_eos_token(request.model_path)` -/
  get_eos_token : Option String
  /-- answer of `is_cancelled(request_id)`: check 0 is the one before generation,
  check i + 1 the one in loop iteration i -/
  is_cancelled : Nat → Bool
  /-- the `malloc` of the result buffer gave memory -/
  malloc_ok : Bool
  /-- token given by `llama_sampler_sample`: sample 0 is the one before the loop,
  sample i + 1 the one in loop iteration i -/
  sample : Nat → Int
  /-- value of `llama_vocab_eos(vocab)` -/
  model_eos_token : Int
  /-- result of `llama_vocab_is_eog(vocab, token)` -/
  is_eog : Int → Bool
  /-- text that `llama_token_to_piece` writes for a token, read back as a C string;
  `none` when it reports a negative length -/
  token_to_piece : Int → Option String
  /-- cells in use, read at the top of loop iteration i -/
  kv_used : Nat → Int
  /-- the `llama_decode` in loop iteration i failed -/
  decode_fails : Nat → Bool
  /-- the `what()` text of the `std::length_error` of `std::string::reserve` -/
  length_error_what : String

/-- The `log_message` lines of the generation phase, from the cancellation
checkpoint on. The two reports that carry elapsed times are left out. -/
inductive LogLine where
  | cancelled_before_generation
  | starting_loop
  | context_size_exceeded
  | token_to_text_failed
  | result_exceeded_size
  | decode_failed
  | end_of_generation
  | reached_max_tokens (n_max_tokens : Int)
  | generation_cancelled
  | loop_complete
  | invoking_final_callback
  | final_callback_invoked
  | callback_is_null (result : String)
  | cleaning_up
  | cleaned_up
deriving DecidableEq, Repr

/-- The text of each log line, as written in the source. -/
def LogLine.text : LogLine → String
  | .cancelled_before_generation => "Request cancelled before generation started"
  | .starting_loop => "[DEBUG] starting token generation loop"
  | .context_size_exceeded => "[DEBUG] context size exceeded"
  | .token_to_text_failed => "[DEBUG] failed to convert token to text"
  | .result_exceeded_size => "[WARNING] Result exceeded estimated size"
  | .decode_failed => "[DEBUG] decode failed"
  | .end_of_generation => "[DEBUG] end of generation detected"
  | .reached_max_tokens n => "[DEBUG] reached max tokens: " ++ toString n
  | .generation_cancelled => "[DEBUG] generation cancelled"
  | .loop_complete => "[DEBUG] token generation loop complete"
  | .invoking_final_callback => "[DEBUG] Invoking final callback"
  | .final_callback_invoked => "[DEBUG] Final callback invoked"
  | .callback_is_null result => "WARNING: callback is NULL. Output: " ++ result
  | .cleaning_up => "Cleaning up resources..."
  | .cleaned_up => "Resources cleaned up successfully"

/-- Observable actions, in the order the function performs them. Of the logging
only the lines of the generation phase are kept. The last two are markers of the
model, not calls of the program. -/
inductive Event where
  | callback (text : String) (done : Bool)
  | ifstream_open (path : String)
  | force_memory_release
  | ggml_backend_load_all
  | llama_sampler_chain_init
  | llama_sampler_init_min_p_one_minus (top_p : CFloat)
  | llama_sampler_init_temp (temperature : CFloat)
  | llama_sampler_init_dist_default_seed
  | llama_log_set
  | prompt_contains_image
  | llama_model_load_from_file (path : String) (vocab_only : Bool) (n_gpu_layers : Int)
  | llama_model_free
  | llama_init_from_model (n_ctx : Int) (n_batch : Int) (n_threads : Int)
  | clip_model_load (path : String)
  | llava_image_embed_make
  | clip_free
  | remove_all_images_from_prompt
  | llama_model_get_vocab
  | llama_tokenize
  | tokens_list_alloc
  | add_string_to_context (text : String)
  | add_image_embed_to_context
  | llava_image_embed_free
  | llama_get_kv_cache_used_cells
  | llama_decode (n_tokens : Nat)
  | pllama_get_eos_token
  | free_eos_token_chars
  | is_cancelled (request_id : Int)
  | result_reserve (size : Int)
  | malloc (size : Int)
  | llama_sampler_sample
  | llama_token_to_piece (token : Int)
  | llama_free
  | llama_sampler_free
  | llama_backend_free
  | free_c_result
  | log (line : LogLine)
  /-- marker: a write to `c_result` fell outside the allocated buffer -/
  | out_of_bounds_write
  /-- marker: the model stopped unrolling the generation loop -/
  | loop_fuel_exhausted
deriving DecidableEq, Repr

/-- Program state threaded through the function: the global flag, the actions
performed so far and the number of external calls made inside the `try` block. -/
structure St where
  model_loading_in_progress : Bool
  trace : List Event
  ext_calls : Nat
deriving DecidableEq, Repr

/-- How a piece of the function body ends: it falls through to the next
statement with a value, executes `return`, or throws. -/
inductive Res (α : Type) where
  | next (a : α) (s : St)
  | returned (s : St)
  | threw (e : Exn) (s : St)

/-- Statements of the function body: state transformers with the three endings. -/
def M (α : Type) : Type := St → Res α

/-- Sequencing: `return` and a thrown exception skip what follows. -/
def M.bind {α β : Type} (m : M α) (f : α → M β) : M β := fun s =>
  match m s with
  | .next a s1 => f a s1
  | .returned s1 => .returned s1
  | .threw e s1 => .threw e s1

instance : Monad M where
  pure a := fun s => .next a s
  bind := M.bind

/-- The state in which a piece of the body ends. -/
def Res.state {α : Type} : Res α → St
  | .next _ s => s
  | .returned s => s
  | .threw _ s => s

/-- An action that cannot throw (a release, a C callback). -/
def emit (e : Event) : M Unit := fun s =>
  .next () { s with trace := s.trace ++ [e] }

/-- An external call inside the `try` block: it is recorded, and it throws when
the world says that this call does. -/
def ext (w : World) (e : Event) : M Unit := fun s =>
  let s1 : St := { s with trace := s.trace ++ [e], ext_calls := s.ext_calls + 1 }
  match w.fault s.ext_calls with
  | some x => .threw x s1
  | none => .next () s1

/-- The statement `return;`. -/
def ret {α : Type} : M α := fun s => .returned s

/-- A `throw` from library code whose exception is known. -/
def throw_exn {α : Type} (x : Exn) : M α := fun s => .threw x s

/-- The guarded call `if (callback != NULL) callback(text, done);`, the argument
`callback` telling whether the pointer is set. -/
def invoke (callback : Bool) (text : String) (done : Bool) : M Unit :=
  if callback then emit (.callback text done) else pure ()

/-- The lambda `reset_loading_flag`: `model_loading_in_progress.store(false)`. -/
def reset_loading_flag : M Unit := fun s =>
  .next () { s with model_loading_in_progress := false }

/-- The local pointers the `cleanup` lambda looks at: is each one non-null. -/
structure Locals where
  ctx : Bool
  model : Bool
  smpl : Bool
  c_result : Bool
deriving DecidableEq, Repr

/-- A statement guarded by `if (cond)`, with nothing in the else branch. -/
def only_if (cond : Bool) (m : M Unit) : M Unit :=
  if cond then m else pure ()

/-- The lambda `cleanup`. -/
def cleanup (l : Locals) : M Unit := do
  only_if l.ctx (emit .llama_free)
  only_if l.model (emit .llama_model_free)
  only_if l.smpl (emit .llama_sampler_free)
  emit .llama_backend_free
  only_if l.c_result (emit .free_c_result)
  reset_loading_flag

/-- Arithmetic on `int`: the result wrapped to 32 bits, two's complement. -/
def wrap_int (x : Int) : Int := (x + 2147483648) % 4294967296 - 2147483648

/-- Conversion of an `int` to `size_t` (64 bits). -/
def to_size_t (x : Int) : Nat := (x % 18446744073709551616).toNat

/-- The C string that `strncpy(dst, src, n); dst[n] = 0` leaves in `dst`: the first
`n` characters of the source. -/
def strncpy (src : String) (n : Nat) : String := String.mk (src.data.take n)

/-! ## The function body -/

/-- The exit sequence shared by the failure exits and the cancelled exit:
terminal callback, `cleanup()`, `return`. -/
def exit_with (callback : Bool) (message : String) (l : Locals) : M Unit := do
  invoke callback message true
  cleanup l
  ret

/-- The statement `if (cond) { callback(message, true); cleanup(); return; }`. -/
def exit_if (cond : Bool) (callback : Bool) (message : String) (l : Locals) : M Unit :=
  only_if cond (exit_with callback message l)

/-- The helper `add_tokens_to_context` on the `N` prompt tokens (the context is
non-null where it is called); the value is its boolean result. -/
def add_tokens_to_context (w : World) (N : Int) : M Bool :=
  if N == 0 then pure true
  else do
    ext w .llama_get_kv_cache_used_cells
    if w.kv_used_prompt + N > w.n_ctx then pure false
    else do
      ext w (.llama_decode N.toNat)
      if w.prompt_decode_fails then pure false
      else do
        ext w .llama_get_kv_cache_used_cells
        pure true

/-- The loop over `image_embeddings`: for every non-null embedding, the preamble
`Attached Image #k:` when there are several images (the result of
`add_string_to_context` is ignored by the caller, so the helper is kept as one
call), the embedding itself, and its release. `idx` is `idx_embedding`. -/
def add_images (w : World) (several : Bool) : List Bool → Nat → M Unit
  | [], _ => pure ()
  | embedding :: rest, idx => do
      only_if embedding (do
        only_if several
          (ext w (.add_string_to_context ("Attached Image #" ++ toString (idx + 1) ++ ":\n")))
        ext w .add_image_embed_to_context
        emit .llava_image_embed_free)
      add_images w several rest (if embedding && several then idx + 1 else idx)

/-- The block `if (should_load_clip) { ... }`: check that the projector file
opens, load the CLIP model, make the embeddings, free the CLIP model. The value
is the vector `image_embeddings`. -/
def load_image_embeddings (w : World) (callback : Bool) (should_load_clip : Bool)
    (mmproj : String) (held : Locals) : M (List Bool) :=
  if should_load_clip then do
    emit (.ifstream_open mmproj)
    exit_if (w.file mmproj).isNone callback "Error: Unable to load CLIP model" held
    ext w (.clip_model_load mmproj)
    exit_if (!w.clip) callback "Error: Failed to load CLIP model" held
    ext w .llava_image_embed_make
    emit .clip_free
    pure w.image_embeddings
  else pure []

/-- The call `result.reserve(estimated_total_size)`: a negative `int` converts to a
`size_t` above `max_size()` and the call throws `std::length_error`. -/
def result_reserve (w : World) (estimated_total_size : Int) : M Unit :=
  if estimated_total_size < 0 then do
    emit (.result_reserve estimated_total_size)
    throw_exn (.std_exception w.length_error_what)
  else ext w (.result_reserve estimated_total_size)

/-- The pair `strncpy(c_result, result.c_str(), estimated_total_size - 1);
c_result[estimated_total_size - 1] = 0` on the buffer of `estimated_total_size`
bytes. `strncpy` writes exactly its count of bytes, the count being converted to
`size_t`; the marker is recorded when that count reaches past the buffer. The
value is the C string left in `c_result`, the buffer being treated as a value. -/
def copy_to_c_result (result : String) (estimated_total_size : Int) : M String := do
  only_if (decide (to_size_t (estimated_total_size - 1) ≥ to_size_t estimated_total_size))
    (emit .out_of_bounds_write)
  pure (strncpy result (to_size_t (estimated_total_size - 1)))

/-- The intermediate callback of the loop: sent when the callback is set and
`result.length() < estimated_total_size`, with the buffer copy of `result`; a
warning is logged instead when the result has reached that size. -/
def send_update (callback : Bool) (result : String) (estimated_total_size : Int) : M Unit :=
  only_if callback
    (if result.length < to_size_t estimated_total_size then do
      let c_result ← copy_to_c_result result estimated_total_size
      emit (.callback c_result false)
    else emit (.log .result_exceeded_size))

/-- The `while (!generation_complete)` loop. `i` counts the iterations begun,
`n_gen`, `result` and `new_token_id` are the variables of the source; the value is
`result` when the loop is left. The first argument bounds the number of
iterations the model unrolls; `loop_fuel_exhausted` marks a run cut by it. -/
def gen_loop (w : World) (request_id : Int) (callback : Bool) (n_max_tokens : Int)
    (estimated_total_size : Int) : Nat → Nat → Int → String → Int → M String
  | 0, _, _, result, _ => do
      emit .loop_fuel_exhausted
      pure result
  | fuel + 1, i, n_gen, result, new_token_id => do
      ext w .llama_get_kv_cache_used_cells
      if w.kv_used i + 1 > w.n_ctx then do
        emit (.log .context_size_exceeded)
        pure result
      else do
        ext w (.llama_token_to_piece new_token_id)
        match w.token_to_piece new_token_id with
        | none => do
            emit (.log .token_to_text_failed)
            pure result
        | some piece => do
            let result := result ++ piece
            let n_gen := n_gen + 1
            send_update callback result estimated_total_size
            ext w (.llama_decode 1)
            if w.decode_fails i then do
              emit (.log .decode_failed)
              pure result
            else do
              ext w .llama_sampler_sample
              let new_token_id := w.sample (i + 1)
              if new_token_id == w.model_eos_token || w.is_eog new_token_id then do
                emit (.log .end_of_generation)
                pure result
              else if n_gen ≥ n_max_tokens then do
                emit (.log (.reached_max_tokens n_max_tokens))
                pure result
              else do
                ext w (.is_cancelled request_id)
                if w.is_cancelled (i + 1) then do
                  emit (.log .generation_cancelled)
                  pure result
                else
                  gen_loop w request_id callback n_max_tokens estimated_total_size fuel
                    (i + 1) n_gen result new_token_id

/-- The block that sends the final result: the terminal callback between its two
log lines, or, with a null callback, the log line that carries the result. -/
def final_callback (callback : Bool) (c_result : String) (result : String) : M Unit :=
  if callback then do
    emit (.log .invoking_final_callback)
    emit (.callback c_result true)
    emit (.log .final_callback_invoked)
  else emit (.log (.callback_is_null result))

/-- Iterations the loop can make: `n_gen` grows by one per iteration and the loop
is left once `n_gen >= n_max_tokens`. -/
def loop_bound (max_tokens : Int) : Nat := (max 1 max_tokens).toNat

/-- The `try` block of `pllama_inference_sync`, entered with both required
pointers non-null and the model file verified. -/
def try_body (request : pllama_inference_request) (model_path input : String)
    (callback : Bool) (w : World) : M Unit := do
  ext w .force_memory_release
  ext w .ggml_backend_load_all
  let n_gpu_layers := if w.mobile then 0 else request.num_gpu_layers
  let n_threads :=
    if w.mobile && decide (request.num_threads > 2) then 2 else request.num_threads
  ext w .llama_sampler_chain_init
  ext w (.llama_sampler_init_min_p_one_minus request.top_p)
  ext w (.llama_sampler_init_temp request.temperature)
  ext w .llama_sampler_init_dist_default_seed
  ext w .llama_log_set
  ext w .prompt_contains_image
  let prompt_contains_img := w.prompt_contains_image input
  let mmproj := request.model_mmproj_path.getD ""
  let should_load_clip := prompt_contains_img && !(mmproj == "")
  -- phase 1: vocabulary only
  ext w (.llama_model_load_from_file model_path true n_gpu_layers)
  exit_if (!w.vocab_model) callback "Error: Unable to load model vocabulary"
    ⟨false, false, true, false⟩
  ext w .force_memory_release
  emit .llama_model_free
  -- phase 2: full model
  ext w (.llama_model_load_from_file model_path false n_gpu_layers)
  exit_if (!w.full_model) callback "Error: Unable to load full model"
    ⟨false, false, true, false⟩
  ext w (.llama_init_from_model request.context_size request.context_size n_threads)
  exit_if (!w.context) callback "Error: Unable to create context"
    ⟨false, true, true, false⟩
  let held : Locals := ⟨true, true, true, false⟩
  let image_embeddings ← load_image_embeddings w callback should_load_clip mmproj held
  only_if prompt_contains_img (ext w .remove_all_images_from_prompt)
  let final_request_input :=
    if prompt_contains_img then w.remove_all_images_from_prompt input else input
  let n_ctx := w.n_ctx
  ext w .llama_model_get_vocab
  exit_if (!w.vocab) callback "Error: Failed to get vocabulary" held
  ext w .llama_tokenize
  let n_prompt_tokens := w.n_prompt_tokens final_request_input
  exit_if (decide (n_prompt_tokens ≤ 0)) callback "Error: Tokenization failed" held
  ext w .tokens_list_alloc
  ext w .llama_tokenize
  exit_if (decide (w.tokenize final_request_input < 0)) callback
    "Error: Unable to tokenize input" held
  let n_max_tokens := request.max_tokens
  exit_if (decide (n_prompt_tokens.toNat > to_size_t (wrap_int (n_ctx - n_max_tokens))))
    callback "Error: Input too large for context size" held
  add_images w (decide (image_embeddings.length > 1)) image_embeddings 0
  let added ← add_tokens_to_context w n_prompt_tokens
  exit_if (!added) callback "Error: Failed to add tokens to context" held
  only_if request.eos_token.isNone (ext w .pllama_get_eos_token)
  let eos_token_chars :=
    match request.eos_token with
    | some t => some t
    | none => w.get_eos_token
  exit_if eos_token_chars.isNone callback "Error: Failed to get EOS token" held
  emit .free_eos_token_chars
  -- cancellation checkpoint before generation
  ext w (.is_cancelled request.request_id)
  only_if (w.is_cancelled 0) (do
    emit (.log .cancelled_before_generation)
    exit_with callback "" held)
  -- start signal
  invoke callback "" false
  let estimated_total_size := wrap_int (n_max_tokens * 10)
  result_reserve w estimated_total_size
  ext w (.malloc estimated_total_size)
  exit_if (!w.malloc_ok) callback "Error: Memory allocation failure" held
  -- `c_result[0] = 0` needs a buffer of at least one byte
  only_if (decide (to_size_t estimated_total_size < 1)) (emit .out_of_bounds_write)
  let held : Locals := ⟨true, true, true, true⟩
  emit (.log .starting_loop)
  ext w .llama_sampler_sample
  let new_token_id := w.sample 0
  exit_if (new_token_id == -1) callback "Error: Token sampling failed" held
  let result ← gen_loop w request.request_id callback n_max_tokens estimated_total_size
    (loop_bound n_max_tokens) 0 0 "" new_token_id
  emit (.log .loop_complete)
  -- final result
  only_if (!decide (result.length < to_size_t estimated_total_size))
    (emit (.log .result_exceeded_size))
  let c_result ← copy_to_c_result result estimated_total_size
  final_callback callback c_result result
  emit (.log .cleaning_up)
  cleanup held
  emit (.log .cleaned_up)

/-- The two `catch` clauses: terminal callback with the error text, then
`model_loading_in_progress.store(false)`. -/
def catch_handler (callback : Bool) (e : Exn) : M Unit := do
  match e with
  | .std_exception what => invoke callback ("Unhandled error: " ++ what) true
  | .other => invoke callback "Unknown unhandled error occurred" true
  reset_loading_flag

/-- The function `pllama_inference_sync(request, callback)`. `callback` tells
whether the callback pointer is non-null, `flag` is the value of
`model_loading_in_progress` when the call starts; the result is the state when
the call returns. -/
def pllama_inference_sync (request : pllama_inference_request) (callback : Bool)
    (w : World) (flag : Bool) : St :=
  -- `model_loading_in_progress.exchange(true)`
  let s0 : St := { model_loading_in_progress := true, trace := [], ext_calls := 0 }
  if flag then
    ((do invoke callback "Error: Another model loading operation is already in progress" true
         reset_loading_flag : M Unit) s0).state
  else
    match request.model_path, request.input with
    | some model_path, some input =>
        let s1 : St := { s0 with trace := s0.trace ++ [.ifstream_open model_path] }
        if !verify_model_file (w.file model_path) false then
          ((do invoke callback "Error: Invalid or inaccessible model file" true
               reset_loading_flag : M Unit) s1).state
        else
          match try_body request model_path input callback w s1 with
          | .next _ s2 => s2
          | .returned s2 => s2
          | .threw e s2 => (catch_handler callback e s2).state
    | _, _ =>
        ((do invoke callback
               "Error: Missing required input parameters (model_path and input are required)" true
             reset_loading_flag : M Unit) s0).state

/-- The function `pllama_inference_export` of the wasm entry file: it copies its
arguments into a request, field by field, and calls `pllama_inference_sync`. -/
def pllama_inference_export (request_id context_size : Int) (input : Option String)
    (max_tokens : Int) (model_path model_mmproj_path : Option String)
    (num_gpu_layers num_threads : Int) (temperature top_p penalty_freq penalty_repeat : CFloat)
    (grammar eos_token : Option String) (inference_callback_js log_callback_js : Bool)
    (w : World) (flag : Bool) : St :=
  let request : pllama_inference_request :=
    { request_id := request_id
      context_size := context_size
      input := input
      max_tokens := max_tokens
      model_path := model_path
      model_mmproj_path := model_mmproj_path
      num_gpu_layers := num_gpu_layers
      num_threads := num_threads
      temperature := temperature
      top_p := top_p
      penalty_freq := penalty_freq
      penalty_repeat := penalty_repeat
      grammar := grammar
      eos_token := eos_token
      dart_logger := log_callback_js }
  pllama_inference_sync request inference_callback_js w flag

/-! ## Reading a trace -/

/-- The callback invocations of a trace, in order: text and done flag. -/
def callbacks (trace : List Event) : List (String × Bool) :=
  trace.filterMap (fun e =>
    match e with
    | .callback text done => some (text, done)
    | _ => none)

/-- The calls that acquire or release the sampler, the model or the context. -/
def resource_calls (trace : List Event) : List Event :=
  trace.filter (fun e =>
    match e with
    | .llama_sampler_chain_init => true
    | .llama_model_load_from_file _ _ _ => true
    | .llama_init_from_model _ _ _ => true
    | .llama_free => true
    | .llama_model_free => true
    | .llama_sampler_free => true
    | _ => false)

/-- The tokens handed to `llama_token_to_piece`, in order. -/
def converted_tokens (trace : List Event) : List Int :=
  trace.filterMap (fun e =>
    match e with
    | .llama_token_to_piece token => some token
    | _ => none)

/-- The calls that build the sampler chain. -/
def Event.configures_sampler : Event → Bool
  | .llama_sampler_chain_init => true
  | .llama_sampler_init_min_p_one_minus _ => true
  | .llama_sampler_init_temp _ => true
  | .llama_sampler_init_dist_default_seed => true
  | _ => false

/-- The sampler configuration a trace makes: its calls that build the sampler
chain, in order. -/
def sampler_setup (trace : List Event) : List Event :=
  trace.filter Event.configures_sampler

/-- The sampler chain of the source: `llama_sampler_chain_init`, then min-p with
`1 - top_p`, then the temperature, then sampling with the default seed. -/
def sampler_chain (request : pllama_inference_request) : List Event :=
  [.llama_sampler_chain_init, .llama_sampler_init_min_p_one_minus request.top_p,
   .llama_sampler_init_temp request.temperature, .llama_sampler_init_dist_default_seed]

/-- The sampler configuration of a trace is the beginning of the chain of the
source, and the whole chain once the run has gone on to configure logging. -/
def SamplerConfigured (request : pllama_inference_request) (t : List Event) : Prop :=
  sampler_setup t <+: sampler_chain request ∧
  (Event.llama_log_set ∈ t → sampler_setup t = sampler_chain request)

/-- The events made inside the helper functions (releases, image and CLIP calls,
cell counts, decodes, file opens, the reserve and the buffer marker): every event
except callbacks, log lines, and the calls made directly by the function body. -/
def Event.plain : Event → Bool
  | .ifstream_open _ => true
  | .llama_model_free => true
  | .clip_model_load _ => true
  | .llava_image_embed_make => true
  | .clip_free => true
  | .add_string_to_context _ => true
  | .add_image_embed_to_context => true
  | .llava_image_embed_free => true
  | .llama_get_kv_cache_used_cells => true
  | .llama_decode _ => true
  | .result_reserve _ => true
  | .llama_free => true
  | .llama_sampler_free => true
  | .llama_backend_free => true
  | .free_c_result => true
  | .out_of_bounds_write => true
  | _ => false

/-- The releases that `cleanup` performs for given local pointers, in order. -/
def cleanup_events (l : Locals) : List Event :=
  (if l.ctx then [.llama_free] else []) ++
  (if l.model then [.llama_model_free] else []) ++
  (if l.smpl then [.llama_sampler_free] else []) ++
  [.llama_backend_free] ++
  (if l.c_result then [.free_c_result] else [])

/-- What an exit sequence adds to the trace: the terminal callback when the
pointer is set, then the releases. -/
def exit_events (callback : Bool) (message : String) (l : Locals) : List Event :=
  (if callback then [.callback message true] else []) ++ cleanup_events l

/-- The accumulated `result` after the texts of the first `k` sampled tokens
(samples 0 to k - 1) were appended. -/
def accumulated (w : World) : Nat → String
  | 0 => ""
  | k + 1 => accumulated w k ++ (w.token_to_piece (w.sample k)).getD ""

/-- Each of the first `k` sampled tokens has a text. -/
def pieces_defined (w : World) (k : Nat) : Prop :=
  ∀ j, j < k → (w.token_to_piece (w.sample j)).isSome = true

/-- The intermediate callbacks expected after `k` appended tokens: for each
j = 1 .. k in order, the whole accumulated result after j tokens with done = false,
provided that result is shorter than `estimated_total_size`; nothing for a j whose
accumulated result has reached that size. -/
def updates (w : World) (estimated_total_size : Int) : Nat → List (String × Bool)
  | 0 => []
  | k + 1 =>
      updates w estimated_total_size k ++
        (if (accumulated w (k + 1)).length < to_size_t estimated_total_size then
          [(accumulated w (k + 1), false)]
         else [])

/-- The first `k` sampled tokens, in order: the tokens of the iterations
0 to k - 1 of the loop. -/
def samples (w : World) (k : Nat) : List Int := (List.range k).map w.sample

/-- The text that a list of tokens adds up to: their pieces in order, a token
that has no text adding nothing. -/
def text_of (w : World) (tokens : List Int) : String :=
  tokens.foldl (fun r token => r ++ (w.token_to_piece token).getD "") ""

/-- The callbacks `c` made before the terminal one and the tokens `n` handed to
`llama_token_to_piece`: none of either, or for some number `k` of appended tokens
the start signal followed by the intermediate callbacks, the tokens being the
first `k` samples. -/
def Streaming (w : World) (estimated_total_size : Int) (c : List (String × Bool))
    (n : List Int) : Prop :=
  (c = [] ∧ n = []) ∨
  ∃ k, pieces_defined w k ∧ c = ("", false) :: updates w estimated_total_size k ∧
    n = samples w k

/-- A trace in which the callbacks so far are `c` and the converted tokens `n`, no
terminal callback among them, and neither the cancellation of the loop nor its
completion was logged. -/
def Ph (w : World) (estimated_total_size : Int) (c : List (String × Bool)) (n : List Int)
    (t : List Event) : Prop :=
  Streaming w estimated_total_size c n ∧ callbacks t = c ∧ converted_tokens t = n ∧
  Event.log .generation_cancelled ∉ t ∧ Event.log .loop_complete ∉ t

/-- Events that are neither a callback, nor a token conversion, nor one of the two
log lines by which the loop reports its cancellation and its completion. -/
def Event.silent : Event → Bool
  | .callback _ _ => false
  | .llama_token_to_piece _ => false
  | .log .generation_cancelled => false
  | .log .loop_complete => false
  | _ => true

/-- The trace between the conversion call of iteration `k` and what the loop does
with its answer: `k` tokens were appended and their callbacks made, and the
converted tokens are the first `k + 1` samples. -/
def Converting (w : World) (estimated_total_size : Int) (k : Nat) (t : List Event) : Prop :=
  pieces_defined w k ∧ callbacks t = ("", false) :: updates w estimated_total_size k ∧
  converted_tokens t = samples w (k + 1) ∧
  Event.log .generation_cancelled ∉ t ∧ Event.log .loop_complete ∉ t

/-- A trace that ends with a conversion call that threw: some call of the world
throws, the last event is the conversion of the sample of iteration `k`, and up
to there `k` tokens were appended and their callbacks `c` made. -/
def ConversionThrew (w : World) (estimated_total_size : Int) (c : List (String × Bool))
    (t : List Event) : Prop :=
  (∃ i, w.fault i ≠ none) ∧
  ∃ k t1, t = t1 ++ [.llama_token_to_piece (w.sample k)] ∧
    c = ("", false) :: updates w estimated_total_size k ∧
    Converting w estimated_total_size k t

/-- A trace with no terminal callback yet: as in `Ph` for some streamed callbacks,
or ending with a conversion call that threw. -/
def Unfinished (w : World) (estimated_total_size : Int) (t : List Event) : Prop :=
  (∃ c n, Ph w estimated_total_size c n t) ∨ ∃ c, ConversionThrew w estimated_total_size c t

/-- The trace when the generation loop is left with value `result` after `k` tokens
were appended: `result` is their accumulated text, the callbacks are the start
signal and the intermediate ones, the converted tokens are the first `k` samples,
or one more whose conversion failed, and a logged cancellation is the last event. -/
def LoopDone (w : World) (estimated_total_size : Int) (result : String)
    (t : List Event) : Prop :=
  ∃ k, pieces_defined w k ∧ result = accumulated w k ∧
    callbacks t = ("", false) :: updates w estimated_total_size k ∧
    (converted_tokens t = samples w k ∨
      converted_tokens t = samples w (k + 1) ∧ w.token_to_piece (w.sample k) = none) ∧
    Event.log .loop_complete ∉ t ∧
    (Event.log .generation_cancelled ∉ t ∨
      ∃ t1, t = t1 ++ [.log .generation_cancelled] ∧ Event.log .generation_cancelled ∉ t1)

/-- A run that ended before the generation loop completed: streamed callbacks `c`,
then one terminal callback; the loop logged neither cancellation nor completion;
the converted tokens are those of the appended tokens, or the terminal callback
directly follows a conversion call that threw. -/
def Aborted (w : World) (estimated_total_size : Int) (t : List Event) : Prop :=
  Event.log .generation_cancelled ∉ t ∧ Event.log .loop_complete ∉ t ∧
  ∃ c message, callbacks t = c ++ [(message, true)] ∧
    (Streaming w estimated_total_size c (converted_tokens t) ∨
      ∃ t1, t = t1 ++ [.callback message true] ∧
        ConversionThrew w estimated_total_size c t1)

/-- Events that convert, decode or sample a token. -/
def Event.generating : Event → Bool
  | .llama_token_to_piece _ => true
  | .llama_decode _ => true
  | .llama_sampler_sample => true
  | _ => false

/-- A run whose generation loop completed after appending `k` tokens: `t` is the
trace when the loop is left, `post` what follows; the callbacks up to there are
the start signal and the intermediate ones, the converted tokens are the first `k`
samples, or one more whose conversion failed, `post` holds the terminal callback
with the buffer copy of the accumulated result and no generating call, and if
the loop logged a cancellation, that log line is the last event of `t`. -/
def Completed (w : World) (estimated_total_size : Int) (trace : List Event) : Prop :=
  ∃ k t post, trace = t ++ post ∧ pieces_defined w k ∧
    callbacks t = ("", false) :: updates w estimated_total_size k ∧
    (converted_tokens t = samples w k ∨
      converted_tokens t = samples w (k + 1) ∧ w.token_to_piece (w.sample k) = none) ∧
    callbacks post
      = [(strncpy (accumulated w k) (to_size_t (estimated_total_size - 1)), true)] ∧
    (∀ e ∈ post, e.generating = false) ∧
    Event.log .generation_cancelled ∉ post ∧
    (Event.log .generation_cancelled ∉ t ∨
      ∃ t1, t = t1 ++ [.log .generation_cancelled] ∧ Event.log .generation_cancelled ∉ t1)

/-- A trace of the preparation phase: no callback, no token conversion and no
sampling yet, and the cancellation at the checkpoint not logged. -/
def Preparing (t : List Event) : Prop :=
  callbacks t = [] ∧ converted_tokens t = [] ∧ Event.llama_sampler_sample ∉ t ∧
  Event.log .cancelled_before_generation ∉ t

/-- A trace that, if it logs the cancellation at the checkpoint, has exactly one
callback, the empty string with done = true, and neither converts nor samples a
token. -/
def CheckpointExit (t : List Event) : Prop :=
  Event.log .cancelled_before_generation ∈ t →
    callbacks t = [("", true)] ∧ converted_tokens t = [] ∧ Event.llama_sampler_sample ∉ t

/-- The number of calls of `llama_get_kv_cache_used_cells` in a trace. Each
iteration of the generation loop begins with one such call and makes no other,
so the number of these calls the loop makes is the number of iterations it began. -/
def kv_cell_queries (trace : List Event) : Nat :=
  trace.count Event.llama_get_kv_cache_used_cells

/-- The trace `t` continues `t0` by events among which the marker of a cut run
does not occur and at most `c` are cell queries. -/
def LoopAdds (t0 : List Event) (c : Nat) (t : List Event) : Prop :=
  ∃ added, t = t0 ++ added ∧ Event.loop_fuel_exhausted ∉ added ∧ kv_cell_queries added ≤ c

/-- The end condition the loop tests on a freshly sampled token: it is the end of
sequence token of the model or the vocabulary flags it as end of generation. -/
def is_end_token (w : World) (token : Int) : Bool :=
  token == w.model_eos_token || w.is_eog token

/-- A property of the list of tokens converted so far, read as a property of the
trace. -/
def Converted (S : List Int → Prop) (t : List Event) : Prop := S (converted_tokens t)

/-- No converted token after the first one is an end token. -/
def LaterNotEnd (w : World) (n : List Int) : Prop :=
  ∀ token ∈ n.tail, is_end_token w token = false

/-- The converted tokens are the first `m` samples, and of the samples 1 to `k`
none is an end token. -/
def CheckedUpTo (w : World) (m k : Nat) (n : List Int) : Prop :=
  n = samples w m ∧ ∀ j, 0 < j → j ≤ k → is_end_token w (w.sample j) = false

/-! ## Vocabulary for statements about endings -/

/-- From a state whose trace satisfies `P`, the statement ends in a trace that
satisfies `Qn a` when it falls through with value `a`, `Qr` when it returns and
`Qt` when it throws. -/
structure Triple {α : Type} (P : List Event → Prop) (m : M α)
    (Qn : α → List Event → Prop) (Qr Qt : List Event → Prop) : Prop where
  holds : ∀ s, P s.trace →
    match m s with
    | .next a s1 => Qn a s1.trace
    | .returned s1 => Qr s1.trace
    | .threw _ s1 => Qt s1.trace

/-- The property of traces survives every plain event. -/
structure Stable (I : List Event → Prop) : Prop where
  push : ∀ t e, e.plain = true → I t → I (t ++ [e])


/-- Whenever the statement executes `return` or falls through its end, the flag
is clear at that moment. -/
structure EndsReset {α : Type} (m : M α) : Prop where
  returned : ∀ s s1, m s = .returned s1 → s1.model_loading_in_progress = false
  next : ∀ s a s1, m s = .next a s1 → s1.model_loading_in_progress = false

/-- Where one call of `pllama_inference_sync` stands with respect to the flag. -/
inductive Phase where
  /-- not yet at the `exchange` -/
  | idle
  /-- the `exchange` returned true: in the rejection branch, before its `store(false)` -/
  | rejected
  /-- the `exchange` returned false: past the check, loading -/
  | admitted
  /-- returned -/
  | finished
deriving DecidableEq, Repr

/-- The flag and the phase of every call. -/
structure Sys where
  model_loading_in_progress : Bool
  calls : List Phase
deriving DecidableEq, Repr

/-- The atomic steps of a call. -/
inductive Step where
  /-- call `i` executes `model_loading_in_progress.exchange(true)` -/
  | test_and_set (i : Nat)
  /-- the rejected call `i` reports the error, executes `store(false)` and returns -/
  | reject_return (i : Nat)
  /-- the admitted call `i` reaches one of its exits, all of which store false -/
  | finish (i : Nat)
deriving DecidableEq, Repr

/-- One step of the system; `none` when the step is not enabled. -/
def step (s : Sys) : Step → Option Sys
  | .test_and_set i =>
      if s.calls[i]? = some .idle then
        some { model_loading_in_progress := true,
               calls := s.calls.set i
                 (if s.model_loading_in_progress then .rejected else .admitted) }
      else none
  | .reject_return i =>
      if s.calls[i]? = some .rejected then
        some { model_loading_in_progress := false, calls := s.calls.set i .finished }
      else none
  | .finish i =>
      if s.calls[i]? = some .admitted then
        some { model_loading_in_progress := false, calls := s.calls.set i .finished }
      else none

/-- A schedule run from a state; `none` when some step is not enabled. -/
def steps (s : Sys) : List Step → Option Sys
  | [] => some s
  | a :: rest => (step s a).bind (fun s1 => steps s1 rest)

/-- Start of the system: flag clear, `n` calls not yet begun. -/
def Sys.init (n : Nat) : Sys := ⟨false, List.replicate n .idle⟩

/-- Number of calls that are past the flag check and loading. -/
def Sys.loading (s : Sys) : Nat := s.calls.count .admitted

/-! ## A request and a world for worked examples -/

/-- A text-only request: 3 tokens wanted, context of 64, no EOS override. -/
def example_request : pllama_inference_request where
  request_id := 1
  context_size := 64
  input := some "hi"
  max_tokens := 3
  model_path := some "m.gguf"
  model_mmproj_path := none
  num_gpu_layers := 0
  num_threads := 4
  temperature := ⟨0⟩
  top_p := ⟨0⟩
  penalty_freq := ⟨0⟩
  penalty_repeat := ⟨0⟩
  grammar := none
  eos_token := none
  dart_logger := false

/-- A 32-byte file with the GGUF magic. -/
def example_gguf : List Nat := [71, 71, 85, 70] ++ List.replicate 28 0

/-- A world in which every call succeeds and nothing throws: the model file is a
GGUF file, the prompt has 2 tokens, the sampler yields tokens 10, 11, 12, ...,
token 10 reads "a" and every other token "bc", token 2 is the end of sequence,
no request is cancelled. -/
def example_world : World where
  mobile := false
  file := fun path => if path == "m.gguf" then some example_gguf else none
  fault := fun _ => none
  prompt_contains_image := fun _ => false
  remove_all_images_from_prompt := fun text => text
  vocab_model := true
  full_model := true
  context := true
  clip := true
  image_embeddings := []
  n_ctx := 64
  vocab := true
  n_prompt_tokens := fun _ => 2
  tokenize := fun _ => 2
  kv_used_prompt := 0
  prompt_decode_fails := false
  get_eos_token := some "</s>"
  is_cancelled := fun _ => false
  malloc_ok := true
  sample := fun k => 10 + k
  model_eos_token := 2
  is_eog := fun _ => false
  token_to_piece := fun token => some (if token = 10 then "a" else "bc")
  kv_used := fun i => 2 + i
  decode_fails := fun _ => false
  length_error_what := "basic_string::reserve"

/-- The example world with long token texts: token 10 reads "a", every other
token reads forty characters. -/
def long_piece_world : World :=
  { example_world with
    token_to_piece := fun token =>
      some (if token = 10 then "a" else "0123456789012345678901234567890123456789") }

/-- The world of long token texts in which the request is found cancelled at the
second check inside the loop (the checkpoint before the loop being check 0). -/
def cancelled_at_second_check : World :=
  { long_piece_world with is_cancelled := fun k => k == 2 }

/-- The example world in which the registry answers "cancelled" at every check. -/
def cancelled_at_checkpoint : World :=
  { example_world with is_cancelled := fun _ => true }

/-- The example world whose sampler yields the end of sequence token (token 2,
reading "</s>") from the first sample on. -/
def eos_first_world : World :=
  { example_world with
    sample := fun _ => 2
    token_to_piece := fun token => some (if token = 2 then "</s>" else "a") }

end Pllama

/-! # Theorems -/

namespace TokenizerManager

/-! ## Expiry -/

theorem isModelCacheValid_iff (entry : ModelCacheEntry) (now : Int)
    (h : entry.created_at ≤ now) :
    isModelCacheValid entry now = true ↔
      now - entry.created_at < 30 * TICKS_PER_MINUTE := by
  have h0 : (0 : Int) ≤ now - entry.created_at := by omega
  have hq : Int.tdiv (now - entry.created_at) TICKS_PER_MINUTE
      = (now - entry.created_at) / 60000000000 := by
    rw [Int.tdiv_eq_ediv h0 (by decide)]; rfl
  simp only [isModelCacheValid, decide_eq_true_eq]
  rw [hq]
  simp only [TICKS_PER_MINUTE, MODEL_CACHE_DURATION]
  omega

/-! ## Lookup, refresh and assignment on the pair list -/

theorem find_touch (cache : List (String × ModelCacheEntry)) (model_path : String)
    (now : Int) (entry : ModelCacheEntry) (h : find cache model_path = some entry) :
    find (touch cache model_path now) model_path = some { entry with last_access := now } := by
  induction cache with
  | nil => simp [find] at h
  | cons p rest ih =>
    by_cases hp : (p.1 == model_path) = true
    · simp [find, List.find?, hp] at h
      simp [find, touch, List.find?, hp, h]
    · simp only [Bool.not_eq_true] at hp
      have h1 : find rest model_path = some entry := by
        simpa [find, List.find?, hp] using h
      have := ih h1
      simpa [find, touch, List.find?, hp] using this

theorem any_eq_false_of_find_none (cache : List (String × ModelCacheEntry))
    (model_path : String) (h : find cache model_path = none) :
    cache.any (fun p => p.1 == model_path) = false := by
  induction cache with
  | nil => rfl
  | cons p rest ih =>
    by_cases hp : (p.1 == model_path) = true
    · simp [find, List.find?, hp] at h
    · simp only [Bool.not_eq_true] at hp
      have h1 : find rest model_path = none := by
        simpa [find, List.find?, hp] using h
      simp [List.any, hp, ih h1]

theorem length_assign_le (cache : List (String × ModelCacheEntry)) (model_path : String)
    (value : ModelCacheEntry) :
    (assign cache model_path value).length ≤ cache.length + 1 ∧
    1 ≤ (assign cache model_path value).length := by
  unfold assign
  split
  · rename_i h
    simp only [List.length_map]
    refine ⟨by omega, ?_⟩
    cases cache with
    | nil => simp at h
    | cons p rest => simp
  · simp

/-! ## The element `std::min_element` points at -/

theorem min_element_go_spec (xs : List (String × ModelCacheEntry)) :
    ∀ (i best_idx : Nat) (best : Int),
      ∃ v : Int, v ≤ best ∧ (∀ x ∈ xs, v ≤ x.2.last_access) ∧
        ((min_element_go xs i best_idx best = best_idx ∧ v = best) ∨
         (i ≤ min_element_go xs i best_idx best ∧
          ∃ e, xs[min_element_go xs i best_idx best - i]? = some e ∧ e.2.last_access = v)) := by
  induction xs with
  | nil =>
    intro i best_idx best
    exact ⟨best, le_refl _, by simp, Or.inl ⟨rfl, rfl⟩⟩
  | cons x rest ih =>
    intro i best_idx best
    by_cases hlt : x.2.last_access < best
    · obtain ⟨v, hv, hall, hcase⟩ := ih (i + 1) i x.2.last_access
      have hgo : min_element_go (x :: rest) i best_idx best
          = min_element_go rest (i + 1) i x.2.last_access := by
        simp [min_element_go, hlt]
      rw [hgo]
      refine ⟨v, by omega, ?_, Or.inr ?_⟩
      · intro y hy
        rcases List.mem_cons.mp hy with rfl | hy
        · exact hv
        · exact hall y hy
      · rcases hcase with ⟨hidx, hval⟩ | ⟨hge, e, he, hev⟩
        · refine ⟨by omega, x, ?_, by omega⟩
          rw [hidx]; simp
        · refine ⟨by omega, e, ?_, hev⟩
          have : min_element_go rest (i + 1) i x.2.last_access - i
              = (min_element_go rest (i + 1) i x.2.last_access - (i + 1)) + 1 := by omega
          rw [this]; simpa using he
    · obtain ⟨v, hv, hall, hcase⟩ := ih (i + 1) best_idx best
      have hgo : min_element_go (x :: rest) i best_idx best
          = min_element_go rest (i + 1) best_idx best := by
        simp [min_element_go, hlt]
      rw [hgo]
      refine ⟨v, hv, ?_, ?_⟩
      · intro y hy
        rcases List.mem_cons.mp hy with rfl | hy
        · omega
        · exact hall y hy
      · rcases hcase with ⟨hidx, hval⟩ | ⟨hge, e, he, hev⟩
        · exact Or.inl ⟨hidx, hval⟩
        · refine Or.inr ⟨by omega, e, ?_, hev⟩
          have : min_element_go rest (i + 1) best_idx best - i
              = (min_element_go rest (i + 1) best_idx best - (i + 1)) + 1 := by omega
          rw [this]; simpa using he

theorem min_element_spec (cache : List (String × ModelCacheEntry)) (hne : cache ≠ []) :
    ∃ i victim, min_element cache = some i ∧ cache[i]? = some victim ∧
      ∀ x ∈ cache, victim.2.last_access ≤ x.2.last_access := by
  cases cache with
  | nil => exact absurd rfl hne
  | cons x rest =>
    obtain ⟨v, hv, hall, hcase⟩ := min_element_go_spec rest 1 0 x.2.last_access
    rcases hcase with ⟨hidx, hval⟩ | ⟨hge, e, he, hev⟩
    · refine ⟨0, x, ?_, by simp, ?_⟩
      · simp [min_element, hidx]
      · intro y hy
        rcases List.mem_cons.mp hy with rfl | hy
        · exact le_refl _
        · have := hall y hy; omega
    · refine ⟨min_element_go rest 1 0 x.2.last_access, e, rfl, ?_, ?_⟩
      · have : min_element_go rest 1 0 x.2.last_access
            = (min_element_go rest 1 0 x.2.last_access - 1) + 1 := by omega
        rw [this]; simpa using he
      · intro y hy
        rcases List.mem_cons.mp hy with rfl | hy
        · omega
        · have := hall y hy; omega

/-! ## Bounds kept by every call -/

theorem getOrLoadModel_keeps_bounds (m : Manager) (model_path : String) (now : Int)
    (w : LoadAnswers)
    (h : m.model_cache.length ≤ m.total_cached_models ∧ m.total_cached_models ≤ 5 ∧
      (m.model_cache = [] → m.total_cached_models = 0)) :
    (getOrLoadModel m model_path now w).manager.model_cache.length
        ≤ (getOrLoadModel m model_path now w).manager.total_cached_models ∧
    (getOrLoadModel m model_path now w).manager.total_cached_models ≤ 5 ∧
    ((getOrLoadModel m model_path now w).manager.model_cache = [] →
      (getOrLoadModel m model_path now w).manager.total_cached_models = 0) := by
  obtain ⟨hlen, htot, hnil⟩ := h
  have hload : (loadModelWithCache m model_path now w).manager.model_cache.length
        ≤ (loadModelWithCache m model_path now w).manager.total_cached_models ∧
      (loadModelWithCache m model_path now w).manager.total_cached_models ≤ 5 ∧
      ((loadModelWithCache m model_path now w).manager.model_cache = [] →
        (loadModelWithCache m model_path now w).manager.total_cached_models = 0) := by
    unfold loadModelWithCache
    cases hg : w.file_good with
    | false => simpa using ⟨hlen, htot, hnil⟩
    | true =>
      cases hr : w.raw_model with
      | none => simpa using ⟨hlen, htot, hnil⟩
      | some raw =>
        simp only [Bool.not_true, Bool.false_eq_true, if_false]
        by_cases hfull : m.total_cached_models ≥ MAX_CACHED_MODELS
        · have h5 : m.total_cached_models = 5 := by
            simp only [MAX_CACHED_MODELS] at hfull; omega
          have hne : m.model_cache ≠ [] := by
            intro hc; have := hnil hc; omega
          obtain ⟨i, victim, hmin, hget, -⟩ := min_element_spec m.model_cache hne
          have hi : i < m.model_cache.length := by
            rcases Nat.lt_or_ge i m.model_cache.length with hlt | hge
            · exact hlt
            · rw [List.getElem?_eq_none hge] at hget; cases hget
          have hev : evictOldestModel m
              = ⟨m.model_cache.eraseIdx i, size_dec m.total_cached_models⟩ := by
            simp [evictOldestModel, hmin]
          have hel := List.length_eraseIdx_of_lt hi
          have hb := length_assign_le (m.model_cache.eraseIdx i) model_path ⟨some raw, now, now⟩
          rw [if_pos hfull, hev]
          simp only [h5, size_dec, size_inc, SIZE_MODULUS]
          refine ⟨by omega, by omega, ?_⟩
          intro hc
          rw [hc] at hb; simp at hb
        · have hb := length_assign_le m.model_cache model_path ⟨some raw, now, now⟩
          simp only [MAX_CACHED_MODELS] at hfull
          simp only [MAX_CACHED_MODELS, if_neg hfull, size_inc, SIZE_MODULUS]
          refine ⟨by omega, by omega, ?_⟩
          intro hc
          rw [hc] at hb; simp at hb
  unfold getOrLoadModel
  split
  · split
    · refine ⟨by simpa [touch] using hlen, htot, ?_⟩
      intro hc
      apply hnil
      simpa [touch] using hc
    · exact hload
  · exact hload

theorem run_keeps_bounds (calls : List Call) :
    ∀ m : Manager,
      (m.model_cache.length ≤ m.total_cached_models ∧ m.total_cached_models ≤ 5 ∧
        (m.model_cache = [] → m.total_cached_models = 0)) →
      (run m calls).model_cache.length ≤ (run m calls).total_cached_models ∧
      (run m calls).total_cached_models ≤ 5 := by
  induction calls with
  | nil => intro m h; exact ⟨h.1, h.2.1⟩
  | cons c cs ih =>
    intro m h
    exact ih _ (getOrLoadModel_keeps_bounds m c.model_path c.now c.answers h)

/-! ## The claims on the cache -/

/-- C1: when the path is in the cache with an entry created less than 30 minutes
before the call, `getOrLoadModel` returns the handle stored in that entry, makes
no external call (so no model load), and leaves the entry in place with
`last_access` refreshed. -/
theorem C1_hit_returns_stored_handle (m : Manager) (model_path : String) (now : Int)
    (w : LoadAnswers) (entry : ModelCacheEntry)
    (hfind : find m.model_cache model_path = some entry)
    (hafter : entry.created_at ≤ now)
    (hfresh : now - entry.created_at < 30 * TICKS_PER_MINUTE) :
    (getOrLoadModel m model_path now w).ret = entry.model ∧
    (getOrLoadModel m model_path now w).calls = [] ∧
    find (getOrLoadModel m model_path now w).manager.model_cache model_path
      = some { entry with last_access := now } := by
  have hv := (isModelCacheValid_iff entry now hafter).mpr hfresh
  simp [getOrLoadModel, hfind, hv, find_touch _ _ _ _ hfind]

/-- Witness for C1: a path loaded at time 0 with handle 7 is asked for again one tick
before the 30 minutes are over; the second call returns what the first returned. -/
theorem C1_hit_returns_stored_handle_witness :
    (getOrLoadModel (getOrLoadModel Manager.empty "a.gguf" 0 ⟨true, some 7⟩).manager
        "a.gguf" 1799999999999 ⟨true, some 8⟩).ret
      = (getOrLoadModel Manager.empty "a.gguf" 0 ⟨true, some 7⟩).ret ∧
    (getOrLoadModel (getOrLoadModel Manager.empty "a.gguf" 0 ⟨true, some 7⟩).manager
        "a.gguf" 1799999999999 ⟨true, some 8⟩).calls = [] :=
  have h := C1_hit_returns_stored_handle
    (getOrLoadModel Manager.empty "a.gguf" 0 ⟨true, some 7⟩).manager
    "a.gguf" 1799999999999 ⟨true, some 8⟩ ⟨some 7, 0, 0⟩
    (by decide) (by decide) (by decide)
  ⟨h.1.trans (by decide), h.2.1⟩

/-- C2: in a cache reached by any sequence of calls and holding 5 entries, a
successful load of a path that is not in the cache removes exactly one entry, at
a position whose `last_access` is minimal; the cache afterwards is the new entry
followed by the old entries without that one, unchanged. Any entry with a
`last_access` strictly later than that of some other entry (such as one just hit)
is kept. -/
theorem C2_sixth_path_evicts_least_recent (calls : List Call) (model_path : String)
    (now : Int) (w : LoadAnswers) (raw : Nat)
    (hlen : (run Manager.empty calls).model_cache.length = 5)
    (hmiss : find (run Manager.empty calls).model_cache model_path = none)
    (hgood : w.file_good = true) (hraw : w.raw_model = some raw) :
    ∃ i victim, (run Manager.empty calls).model_cache[i]? = some victim ∧
      (∀ x ∈ (run Manager.empty calls).model_cache,
        victim.2.last_access ≤ x.2.last_access) ∧
      (getOrLoadModel (run Manager.empty calls) model_path now w).manager.model_cache
        = (model_path, ⟨some raw, now, now⟩)
          :: (run Manager.empty calls).model_cache.eraseIdx i ∧
      (getOrLoadModel (run Manager.empty calls) model_path now w).manager.model_cache.length
        = 5 ∧
      (getOrLoadModel (run Manager.empty calls) model_path now w).ret = some raw ∧
      (∀ x ∈ (run Manager.empty calls).model_cache,
        (∃ y ∈ (run Manager.empty calls).model_cache,
          y.2.last_access < x.2.last_access) →
        x ∈ (getOrLoadModel (run Manager.empty calls) model_path now w).manager.model_cache) := by
  have hb := run_keeps_bounds calls Manager.empty
    ⟨by simp [Manager.empty], by simp [Manager.empty], by simp [Manager.empty]⟩
  generalize run Manager.empty calls = m at hlen hmiss hb ⊢
  have hcount : m.total_cached_models = 5 := by omega
  have hne : m.model_cache ≠ [] := by
    intro hc; rw [hc] at hlen; simp at hlen
  obtain ⟨i, victim, hmin, hget, hall⟩ := min_element_spec m.model_cache hne
  have hi : i < m.model_cache.length := by
    rcases Nat.lt_or_ge i m.model_cache.length with hlt | hge
    · exact hlt
    · rw [List.getElem?_eq_none hge] at hget; cases hget
  have hany := any_eq_false_of_find_none m.model_cache model_path hmiss
  have hany2 : (m.model_cache.eraseIdx i).any (fun p => p.1 == model_path) = false := by
    rw [List.any_eq_false] at hany ⊢
    intro x hx
    exact hany x (List.mem_of_mem_eraseIdx hx)
  have hcache : (getOrLoadModel m model_path now w).manager.model_cache
      = (model_path, ⟨some raw, now, now⟩) :: m.model_cache.eraseIdx i := by
    simp [getOrLoadModel, hmiss, loadModelWithCache, hgood, hraw, hcount, MAX_CACHED_MODELS,
      evictOldestModel, hmin, assign, hany2]
  have hret : (getOrLoadModel m model_path now w).ret = some raw := by
    simp [getOrLoadModel, hmiss, loadModelWithCache, hgood, hraw]
  refine ⟨i, victim, hget, hall, hcache, ?_, hret, ?_⟩
  · rw [hcache, List.length_cons, List.length_eraseIdx_of_lt hi, hlen]
  · intro x hx hy
    obtain ⟨y, hym, hyx⟩ := hy
    rw [hcache]
    apply List.mem_cons_of_mem
    rw [List.mem_eraseIdx_iff_getElem?]
    obtain ⟨j, hj⟩ := List.mem_iff_getElem?.mp hx
    refine ⟨j, ?_, hj⟩
    intro hji
    rw [hji, hget] at hj
    have hvx : victim = x := by simpa using hj
    have := hall y hym
    rw [hvx] at this
    omega

/-- Witness for C2: five paths loaded at times 1 to 5, the first one hit again at
time 6, then a sixth path loaded at time 7: the entry of the path hit at time 6 is
among those kept. -/
theorem C2_sixth_path_evicts_least_recent_witness :
    ("a", (⟨some 1, 6, 1⟩ : ModelCacheEntry)) ∈
      (getOrLoadModel (run Manager.empty
        [⟨"a", 1, ⟨true, some 1⟩⟩, ⟨"b", 2, ⟨true, some 2⟩⟩, ⟨"c", 3, ⟨true, some 3⟩⟩,
         ⟨"d", 4, ⟨true, some 4⟩⟩, ⟨"e", 5, ⟨true, some 5⟩⟩,
         ⟨"a", 6, ⟨false, none⟩⟩]) "f" 7 ⟨true, some 6⟩).manager.model_cache ∧
    (getOrLoadModel (run Manager.empty
        [⟨"a", 1, ⟨true, some 1⟩⟩, ⟨"b", 2, ⟨true, some 2⟩⟩, ⟨"c", 3, ⟨true, some 3⟩⟩,
         ⟨"d", 4, ⟨true, some 4⟩⟩, ⟨"e", 5, ⟨true, some 5⟩⟩,
         ⟨"a", 6, ⟨false, none⟩⟩]) "f" 7 ⟨true, some 6⟩).manager.model_cache.length = 5 :=
  have ⟨_, _, _, _, _, h4, _, h6⟩ := C2_sixth_path_evicts_least_recent
    [⟨"a", 1, ⟨true, some 1⟩⟩, ⟨"b", 2, ⟨true, some 2⟩⟩, ⟨"c", 3, ⟨true, some 3⟩⟩,
     ⟨"d", 4, ⟨true, some 4⟩⟩, ⟨"e", 5, ⟨true, some 5⟩⟩, ⟨"a", 6, ⟨false, none⟩⟩]
    "f" 7 ⟨true, some 6⟩ 6 (by decide) (by decide) (by decide) (by decide)
  ⟨h6 ("a", ⟨some 1, 6, 1⟩) (by decide)
    ⟨("b", ⟨some 2, 2, 2⟩), by decide, by decide⟩, h4⟩

/-- C3: after any finite sequence of `getOrLoadModel` calls from the empty
manager, whatever the paths, times and load outcomes, `model_cache` holds at
most `MAX_CACHED_MODELS` = 5 entries. -/
theorem C3_cache_size_bounded (calls : List Call) :
    (run Manager.empty calls).model_cache.length ≤ MAX_CACHED_MODELS := by
  have h := run_keeps_bounds calls Manager.empty
    ⟨by simp [Manager.empty], by simp [Manager.empty], by simp [Manager.empty]⟩
  simp only [MAX_CACHED_MODELS]
  omega

/-- C4: for `now` not before the creation time, `isModelCacheValid` holds exactly
when `now - created_at` is under 30 minutes of ticks; it does not look at
`last_access`; and `getOrLoadModel` on a path whose entry is 30 minutes old or more
does what a miss does, whatever the entry's `last_access`. -/
theorem C4_expiry_counts_from_creation (entry : ModelCacheEntry) (now : Int)
    (h : entry.created_at ≤ now) :
    (isModelCacheValid entry now = true ↔
      now - entry.created_at < 30 * TICKS_PER_MINUTE) ∧
    (∀ t : Int, isModelCacheValid { entry with last_access := t } now
      = isModelCacheValid entry now) ∧
    (∀ (m : Manager) (model_path : String) (w : LoadAnswers),
      find m.model_cache model_path = some entry →
      30 * TICKS_PER_MINUTE ≤ now - entry.created_at →
      getOrLoadModel m model_path now w = loadModelWithCache m model_path now w) := by
  refine ⟨isModelCacheValid_iff entry now h, fun t => rfl, ?_⟩
  intro m model_path w hfind hold
  have hv : isModelCacheValid entry now = false := by
    rw [← Bool.not_eq_true, isModelCacheValid_iff entry now h]
    omega
  simp [getOrLoadModel, hfind, hv]

/-- Witness for C4: an entry created at tick 0 and hit one minute before `now`,
asked for exactly 30 minutes after its creation. -/
theorem C4_expiry_counts_from_creation_witness :
    isModelCacheValid ⟨some 1, 1740000000000, 0⟩ 1800000000000 = false ∧
    isModelCacheValid ⟨some 1, 1740000000000, 0⟩ 1799999999999 = true :=
  have h := C4_expiry_counts_from_creation ⟨some 1, 1740000000000, 0⟩ 1800000000000
    (by decide)
  have h2 := C4_expiry_counts_from_creation ⟨some 1, 1740000000000, 0⟩ 1799999999999
    (by decide)
  ⟨by rw [← Bool.not_eq_true, h.1]; decide, h2.1.mpr (by decide)⟩

/-- C5: on a miss or an expired entry, when the file cannot be opened or the
engine gives no model, `getOrLoadModel` returns the null handle and the manager
(entries with their times, and the counter) is exactly what it was. -/
theorem C5_failed_load_changes_nothing (m : Manager) (model_path : String) (now : Int)
    (w : LoadAnswers)
    (hmiss : find m.model_cache model_path = none ∨
      ∃ e, find m.model_cache model_path = some e ∧ isModelCacheValid e now = false)
    (hfail : w.file_good = false ∨ w.raw_model = none) :
    (getOrLoadModel m model_path now w).ret = none ∧
    (getOrLoadModel m model_path now w).manager = m := by
  have hload : (loadModelWithCache m model_path now w).ret = none ∧
      (loadModelWithCache m model_path now w).manager = m := by
    unfold loadModelWithCache
    rcases hfail with hf | hr
    · simp [hf]
    · cases hg : w.file_good <;> simp [hr]
  rcases hmiss with hnone | ⟨e, hsome, hexp⟩
  · simpa [getOrLoadModel, hnone] using hload
  · simpa [getOrLoadModel, hsome, hexp] using hload

/-- Witness for C5: an entry created at tick 0 is asked for 31 minutes later and
the engine gives no model; the expired entry stays. -/
theorem C5_failed_load_changes_nothing_witness :
    (getOrLoadModel ⟨[("a", ⟨some 1, 0, 0⟩)], 1⟩ "a" 1860000000000 ⟨true, none⟩).ret = none ∧
    (getOrLoadModel ⟨[("a", ⟨some 1, 0, 0⟩)], 1⟩ "a" 1860000000000 ⟨true, none⟩).manager
      = ⟨[("a", ⟨some 1, 0, 0⟩)], 1⟩ :=
  C5_failed_load_changes_nothing ⟨[("a", ⟨some 1, 0, 0⟩)], 1⟩ "a" 1860000000000 ⟨true, none⟩
    (Or.inr ⟨⟨some 1, 0, 0⟩, by decide, by decide⟩) (Or.inr rfl)

end TokenizerManager

/-! ## The header check -/

theorem verify_model_file_eq_true_iff (bytes : List Nat) (detailed_check : Bool) :
    verify_model_file (some bytes) detailed_check = true ↔
      32 ≤ bytes.length ∧ bytes.take 4 = [71, 71, 85, 70] := by
  rcases bytes with _ | ⟨a, _ | ⟨b, _ | ⟨c, _ | ⟨d, rest⟩⟩⟩⟩ <;>
    cases detailed_check <;>
    simp [verify_model_file] <;> omega

/-- C6: `verify_model_file` (with or without the detailed check) returns true
exactly when the file can be opened, holds at least 32 bytes and starts with the
bytes `G`, `G`, `U`, `F`; in particular a file under 32 bytes is rejected whatever it
starts with. -/
theorem C6_verify_model_file_iff (file : Option (List Nat)) (detailed_check : Bool) :
    (verify_model_file file detailed_check = true ↔
      ∃ bytes, file = some bytes ∧ 32 ≤ bytes.length ∧ bytes.take 4 = [71, 71, 85, 70]) ∧
    (∀ bytes, file = some bytes → bytes.length < 32 →
      verify_model_file file detailed_check = false) := by
  cases file with
  | none => simp [verify_model_file]
  | some bytes =>
    constructor
    · simp [verify_model_file_eq_true_iff]
    · intro bytes2 hb hlt
      cases hb
      rw [← Bool.not_eq_true, verify_model_file_eq_true_iff]
      omega

namespace Pllama

/-! ## Endings of the statements -/

theorem cleanup_ends (l : Locals) (s : St) :
    ∃ s1, cleanup l s = .next () s1 ∧ s1.model_loading_in_progress = false := by
  obtain ⟨c, m, p, r⟩ := l
  cases c <;> cases m <;> cases p <;> cases r <;>
    exact ⟨_, rfl, rfl⟩

theorem endsReset_cleanup (l : Locals) : EndsReset (cleanup l) := by
  constructor
  · intro s s1 h
    obtain ⟨s2, h2, -⟩ := cleanup_ends l s
    rw [h2] at h; cases h
  · intro s a s1 h
    obtain ⟨s2, h2, hf⟩ := cleanup_ends l s
    rw [h2] at h; cases h
    exact hf

/-- C7: for a request with both required pointers set whose model file is
shorter than 32 bytes or does not start with `GGUF`, a call entered with the flag
clear opens the file, invokes a non-null callback exactly once with
"Error: Invalid or inaccessible model file" and done = true (a null callback is
never invoked), does nothing else, so makes no model-load call, and returns with
`model_loading_in_progress` false. -/
theorem C7_invalid_model_file_rejected (request : pllama_inference_request)
    (callback : Bool) (w : World) (model_path input : String) (bytes : List Nat)
    (hpath : request.model_path = some model_path)
    (hinput : request.input = some input)
    (hfile : w.file model_path = some bytes)
    (hbad : bytes.length < 32 ∨ bytes.take 4 ≠ [71, 71, 85, 70]) :
    (pllama_inference_sync request callback w false).trace
      = .ifstream_open model_path ::
        (if callback then [.callback "Error: Invalid or inaccessible model file" true]
         else []) ∧
    (∀ path vocab_only n_gpu_layers,
      Event.llama_model_load_from_file path vocab_only n_gpu_layers
        ∉ (pllama_inference_sync request callback w false).trace) ∧
    (pllama_inference_sync request callback w false).model_loading_in_progress = false := by
  have hv : verify_model_file (some bytes) false = false := by
    rw [← Bool.not_eq_true, verify_model_file_eq_true_iff]
    rcases hbad with h | h
    · omega
    · exact fun hh => h hh.2
  have htrace : (pllama_inference_sync request callback w false).trace
      = .ifstream_open model_path ::
        (if callback then [.callback "Error: Invalid or inaccessible model file" true]
         else []) := by
    unfold pllama_inference_sync
    simp only [Bool.false_eq_true, if_false, hpath, hinput, hfile, hv, Bool.not_false, if_true]
    cases callback <;> rfl
  refine ⟨htrace, ?_, ?_⟩
  · intro path vocab_only n_gpu_layers
    rw [htrace]
    cases callback <;> simp
  · unfold pllama_inference_sync
    simp only [Bool.false_eq_true, if_false, hpath, hinput, hfile, hv, Bool.not_false, if_true]
    cases callback <;> rfl

/-- Witness for C7: the model file is the 4 bytes `GGUF`, so it is too short. -/
theorem C7_invalid_model_file_rejected_witness :
    (pllama_inference_sync example_request true
      { example_world with file := fun _ => some [71, 71, 85, 70] } false).trace
      = [.ifstream_open "m.gguf",
         .callback "Error: Invalid or inaccessible model file" true] ∧
    (pllama_inference_sync example_request true
      { example_world with file := fun _ => some [71, 71, 85, 70] }
      false).model_loading_in_progress = false :=
  have h := C7_invalid_model_file_rejected example_request true
    { example_world with file := fun _ => some [71, 71, 85, 70] }
    "m.gguf" "hi" [71, 71, 85, 70] rfl rfl rfl (Or.inl (by decide))
  ⟨h.1, h.2.2⟩

/-- C8, as the code behaves: a call rejected while another call is loading
returns with the flag cleared (whatever the request), so in the schedule
"call 0 enters, call 1 enters and is rejected, call 1 returns, call 2 enters"
calls 0 and 2 are both past the flag check and loading. -/
theorem C8_rejected_call_clears_flag :
    (∀ (request : pllama_inference_request) (callback : Bool) (w : World),
      (pllama_inference_sync request callback w true).model_loading_in_progress = false) ∧
    steps (Sys.init 3)
        [.test_and_set 0, .test_and_set 1, .reject_return 1, .test_and_set 2]
      = some ⟨true, [.admitted, .finished, .admitted]⟩ ∧
    Sys.loading ⟨true, [.admitted, .finished, .admitted]⟩ = 2 := by
  refine ⟨?_, by decide, by decide⟩
  intro request callback w
  cases callback <;> rfl

/-- C9: a call entered while `model_loading_in_progress` is true invokes a non-null
callback exactly once, with "Error: Another model loading operation is already in
progress" and done = true, and does nothing else: no file is opened for
validation, no model is loaded, no memory release with its sleep is run. -/
theorem C9_concurrent_call_rejected (request : pllama_inference_request) (w : World) :
    (pllama_inference_sync request true w true).trace
      = [.callback "Error: Another model loading operation is already in progress" true] ∧
    (pllama_inference_sync request false w true).trace = [] := by
  exact ⟨rfl, rfl⟩

end Pllama

namespace TokenizerManager

/-- C19, as the code behaves: reloading an expired path overwrites its entry and
still increments the counter, so after five loads of the same path (each one 31
minutes after the one before) the map holds 1 entry while `total_cached_models`
is 5, and the next load of a new path evicts that only entry although the cache
is far from full. -/
theorem C19_counter_drifts_on_reload :
    (run Manager.empty
      [⟨"a", 0, ⟨true, some 1⟩⟩, ⟨"a", 1860000000000, ⟨true, some 2⟩⟩]).model_cache.length = 1 ∧
    (run Manager.empty
      [⟨"a", 0, ⟨true, some 1⟩⟩,
       ⟨"a", 1860000000000, ⟨true, some 2⟩⟩]).total_cached_models = 2 ∧
    run Manager.empty
      [⟨"a", 0, ⟨true, some 1⟩⟩, ⟨"a", 1860000000000, ⟨true, some 2⟩⟩,
       ⟨"a", 3720000000000, ⟨true, some 3⟩⟩, ⟨"a", 5580000000000, ⟨true, some 4⟩⟩,
       ⟨"a", 7440000000000, ⟨true, some 5⟩⟩]
      = ⟨[("a", ⟨some 5, 7440000000000, 7440000000000⟩)], 5⟩ ∧
    run Manager.empty
      [⟨"a", 0, ⟨true, some 1⟩⟩, ⟨"a", 1860000000000, ⟨true, some 2⟩⟩,
       ⟨"a", 3720000000000, ⟨true, some 3⟩⟩, ⟨"a", 5580000000000, ⟨true, some 4⟩⟩,
       ⟨"a", 7440000000000, ⟨true, some 5⟩⟩, ⟨"b", 7440000000001, ⟨true, some 6⟩⟩]
      = ⟨[("b", ⟨some 6, 7440000000001, 7440000000001⟩)], 5⟩ := by
  decide

end TokenizerManager

namespace Pllama

/-- C13 as stated fails: with 3 tokens wanted (buffer estimate 30), token 10 reading
"a" and the next token reading forty characters, and the request found cancelled at
the second check in the loop, the last done = false callback carries "a" while the
terminal callback carries the first 29 characters of the accumulated text. -/
theorem C13_terminal_text_differs_from_last_update :
    callbacks (pllama_inference_sync example_request true cancelled_at_second_check false).trace
      = [("", false), ("a", false), ("a0123456789012345678901234567", true)] ∧
    Event.log .generation_cancelled
      ∈ (pllama_inference_sync example_request true cancelled_at_second_check false).trace := by
  decide!

/-- C14, as the code behaves: with a context of 64, a prompt of 2 tokens and
`max_tokens` = 100 the difference `n_ctx - n_max_tokens` is negative, its cast to
`size_t` is huge, and the check passes: no "Input too large" callback is made, the 2
prompt tokens are decoded into the context and generation runs. -/
theorem C14_oversized_max_tokens_not_rejected :
    callbacks (pllama_inference_sync { example_request with max_tokens := 100 } true
      { example_world with is_eog := fun _ => true } false).trace
      = [("", false), ("a", false), ("a", true)] ∧
    Event.llama_decode 2 ∈ (pllama_inference_sync { example_request with max_tokens := 100 }
      true { example_world with is_eog := fun _ => true } false).trace := by
  decide!

/-- C15 as stated fails: with 3 tokens wanted (buffer estimate 30) and every token
reading forty characters, three tokens are converted and appended, yet the only
done = false callback is the start signal. -/
theorem C15_appended_token_without_update :
    callbacks (pllama_inference_sync example_request true
      { long_piece_world with sample := fun k => 11 + k } false).trace
      = [("", false), ("01234567890123456789012345678", true)] ∧
    converted_tokens (pllama_inference_sync example_request true
      { long_piece_world with sample := fun k => 11 + k } false).trace = [11, 12, 13] := by
  decide!

/-- C17, as the code behaves: with `max_tokens` = 0 the loop still converts and
appends the first sampled token before it tests `n_gen >= n_max_tokens`, so one
token is generated and the terminal callback carries its text "a"; the writes to the
zero-byte result buffer fall outside it. -/
theorem C17_zero_max_tokens_generates_one_token :
    callbacks (pllama_inference_sync { example_request with max_tokens := 0 } true
      example_world false).trace = [("", false), ("a", true)] ∧
    converted_tokens (pllama_inference_sync { example_request with max_tokens := 0 } true
      example_world false).trace = [10] ∧
    Event.out_of_bounds_write ∈ (pllama_inference_sync { example_request with max_tokens := 0 }
      true example_world false).trace := by
  decide!

/-- C18, as the code behaves: with `max_tokens` = -1 the call `result.reserve` throws
after the sampler, the model and the context were acquired; the handler reports
the error and none of the three is released (the only `llama_model_free` is the
one of the vocabulary-only model, before the full load), whereas the run with
`max_tokens` = 3 ends with the three releases. -/
theorem C18_exception_path_releases_nothing :
    resource_calls (pllama_inference_sync { example_request with max_tokens := -1 } true
      example_world false).trace
      = [.llama_sampler_chain_init, .llama_model_load_from_file "m.gguf" true 0,
         .llama_model_free, .llama_model_load_from_file "m.gguf" false 0,
         .llama_init_from_model 64 64 4] ∧
    callbacks (pllama_inference_sync { example_request with max_tokens := -1 } true
      example_world false).trace
      = [("", false), ("Unhandled error: basic_string::reserve", true)] ∧
    resource_calls (pllama_inference_sync example_request true example_world false).trace
      = [.llama_sampler_chain_init, .llama_model_load_from_file "m.gguf" true 0,
         .llama_model_free, .llama_model_load_from_file "m.gguf" false 0,
         .llama_init_from_model 64 64 4,
         .llama_free, .llama_model_free, .llama_sampler_free] := by
  decide!


/-! ## Rules for the statements -/

theorem triple_bind {α β : Type} {P : List Event → Prop} {m : M α} {f : α → M β}
    {R : α → List Event → Prop} {Qn : β → List Event → Prop} {Qr Qt : List Event → Prop}
    (hm : Triple P m R Qr Qt) (hf : ∀ a, Triple (R a) (f a) Qn Qr Qt) :
    Triple P (m >>= f) Qn Qr Qt := by
  constructor
  intro s hs
  have h1 := hm.holds s hs
  change match M.bind m f s with
    | .next a s1 => Qn a s1.trace
    | .returned s1 => Qr s1.trace
    | .threw _ s1 => Qt s1.trace
  unfold M.bind
  cases hms : m s with
  | next a s2 =>
    rw [hms] at h1
    exact (hf a).holds s2 h1
  | returned s2 => rw [hms] at h1; exact h1
  | threw e s2 => rw [hms] at h1; exact h1

theorem inv_bind {α β : Type} {I : List Event → Prop} {m : M α} {f : α → M β}
    {Qn : β → List Event → Prop} {Qr Qt : List Event → Prop}
    (hm : Triple I m (fun _ => I) Qr Qt) (hf : ∀ a, Triple I (f a) Qn Qr Qt) :
    Triple I (m >>= f) Qn Qr Qt :=
  triple_bind hm hf

theorem triple_pure {α : Type} {P : List Event → Prop} {a : α}
    {Qn : α → List Event → Prop} {Qr Qt : List Event → Prop}
    (h : ∀ t, P t → Qn a t) : Triple P (pure a : M α) Qn Qr Qt :=
  ⟨fun s hs => h s.trace hs⟩

theorem inv_pure {α : Type} {I : List Event → Prop} {a : α}
    {Qr Qt : List Event → Prop} : Triple I (pure a : M α) (fun _ => I) Qr Qt :=
  triple_pure (fun _ h => h)

theorem triple_ret {α : Type} {P : List Event → Prop}
    {Qn : α → List Event → Prop} {Qr Qt : List Event → Prop}
    (h : ∀ t, P t → Qr t) : Triple P (ret : M α) Qn Qr Qt :=
  ⟨fun s hs => h s.trace hs⟩

theorem triple_throw_exn {α : Type} {P : List Event → Prop} {x : Exn}
    {Qn : α → List Event → Prop} {Qr Qt : List Event → Prop}
    (h : ∀ t, P t → Qt t) : Triple P (throw_exn x : M α) Qn Qr Qt :=
  ⟨fun s hs => h s.trace hs⟩

theorem triple_emit {P : List Event → Prop} {e : Event}
    {Qn : Unit → List Event → Prop} {Qr Qt : List Event → Prop}
    (h : ∀ t, P t → Qn () (t ++ [e])) : Triple P (emit e) Qn Qr Qt :=
  ⟨fun s hs => h s.trace hs⟩

theorem triple_ext {P : List Event → Prop} {w : World} {e : Event}
    {Qn : Unit → List Event → Prop} {Qr Qt : List Event → Prop}
    (hn : ∀ t, P t → Qn () (t ++ [e])) (ht : ∀ t, P t → Qt (t ++ [e])) :
    Triple P (ext w e) Qn Qr Qt := by
  constructor
  intro s hs
  unfold ext
  dsimp only
  cases h : w.fault s.ext_calls with
  | some x => exact ht s.trace hs
  | none => exact hn s.trace hs

theorem triple_ext_faulty {P : List Event → Prop} {w : World} {e : Event}
    {Qn : Unit → List Event → Prop} {Qr Qt : List Event → Prop}
    (hn : ∀ t, P t → Qn () (t ++ [e]))
    (ht : (∃ i, w.fault i ≠ none) → ∀ t, P t → Qt (t ++ [e])) :
    Triple P (ext w e) Qn Qr Qt := by
  constructor
  intro s hs
  unfold ext
  dsimp only
  cases h : w.fault s.ext_calls with
  | some x => exact ht ⟨s.ext_calls, by rw [h]; simp⟩ s.trace hs
  | none => exact hn s.trace hs

theorem triple_ext_of_no_fault {P : List Event → Prop} {w : World} {e : Event}
    {N : Unit → List Event → Prop} {Qr Qt : List Event → Prop}
    (hfault : ∀ k, w.fault k = none)
    (hn : ∀ t, P t → N () (t ++ [e])) : Triple P (ext w e) N Qr Qt := by
  constructor
  intro s hs
  unfold ext
  dsimp only
  rw [hfault]
  exact hn s.trace hs

theorem inv_emit {I : List Event → Prop} {e : Event} {Qr Qt : List Event → Prop}
    (h : ∀ t, I t → I (t ++ [e])) : Triple I (emit e) (fun _ => I) Qr Qt :=
  triple_emit h

theorem inv_ext {I : List Event → Prop} {w : World} {e : Event}
    {Qr Qt : List Event → Prop}
    (h : ∀ t, I t → I (t ++ [e])) (ht : ∀ t, I t → Qt t) :
    Triple I (ext w e) (fun _ => I) Qr Qt :=
  triple_ext h (fun t hI => ht _ (h t hI))

theorem inv_only_if {I : List Event → Prop} {cond : Bool} {m : M Unit}
    {Qr Qt : List Event → Prop} (hm : Triple I m (fun _ => I) Qr Qt) :
    Triple I (only_if cond m) (fun _ => I) Qr Qt := by
  unfold only_if
  split
  · exact hm
  · exact inv_pure

theorem triple_weaken {α : Type} {P P2 : List Event → Prop} {m : M α}
    {N Qn2 : α → List Event → Prop} {Qr Qr2 Qt Qt2 : List Event → Prop}
    (h : Triple P m N Qr Qt) (hp : ∀ t, P2 t → P t) (hn : ∀ a t, N a t → Qn2 a t)
    (hr : ∀ t, Qr t → Qr2 t) (ht : ∀ t, Qt t → Qt2 t) : Triple P2 m Qn2 Qr2 Qt2 := by
  constructor
  intro s hs
  have h1 := h.holds s (hp _ hs)
  cases hms : m s with
  | next a s2 => rw [hms] at h1; exact hn _ _ h1
  | returned s2 => rw [hms] at h1; exact hr _ h1
  | threw e s2 => rw [hms] at h1; exact ht _ h1

theorem triple_of_false {α : Type} {m : M α}
    {Qn : α → List Event → Prop} {Qr Qt : List Event → Prop} :
    Triple (fun _ => False) m Qn Qr Qt :=
  ⟨fun _ h => h.elim⟩

/-! ## What the helper functions add to a trace -/

theorem cleanup_eq (l : Locals) (s : St) :
    cleanup l s = .next () ⟨false, s.trace ++ cleanup_events l, s.ext_calls⟩ := by
  obtain ⟨c, m, p, r⟩ := l
  cases c <;> cases m <;> cases p <;> cases r <;>
    simp [cleanup, cleanup_events, only_if, emit, reset_loading_flag, bind, M.bind, pure]

theorem exit_with_eq (callback : Bool) (message : String) (l : Locals) (s : St) :
    exit_with callback message l s
      = .returned ⟨false, s.trace ++ exit_events callback message l, s.ext_calls⟩ := by
  unfold exit_with
  change M.bind (invoke callback message true)
    (fun _ => M.bind (cleanup l) (fun _ => ret)) s = _
  cases callback <;>
    simp [M.bind, invoke, emit, pure, cleanup_eq, ret, exit_events]

theorem stable_append {I : List Event → Prop} (hI : Stable I) :
    ∀ (es : List Event) (t : List Event), (∀ e ∈ es, e.plain = true) → I t → I (t ++ es) := by
  intro es
  induction es with
  | nil => intro t _ h; simpa using h
  | cons e rest ih =>
    intro t hes h
    have h1 := hI.push t e (hes e (List.mem_cons_self _ _)) h
    have h2 := ih (t ++ [e]) (fun x hx => hes x (List.mem_cons_of_mem _ hx)) h1
    simpa using h2

theorem cleanup_events_plain (l : Locals) : ∀ e ∈ cleanup_events l, e.plain = true := by
  obtain ⟨c, m, p, r⟩ := l
  cases c <;> cases m <;> cases p <;> cases r <;>
    simp [cleanup_events, Event.plain]

theorem triple_cleanup {P : List Event → Prop} {l : Locals}
    {Qn : Unit → List Event → Prop} {Qr Qt : List Event → Prop}
    (h : ∀ t, P t → Qn () (t ++ cleanup_events l)) : Triple P (cleanup l) Qn Qr Qt := by
  constructor
  intro s hs
  rw [cleanup_eq]
  exact h s.trace hs

theorem triple_exit_with {P : List Event → Prop} {callback : Bool} {message : String}
    {l : Locals} {Qn : Unit → List Event → Prop} {Qr Qt : List Event → Prop}
    (h : ∀ t, P t → Qr (t ++ exit_events callback message l)) :
    Triple P (exit_with callback message l) Qn Qr Qt := by
  constructor
  intro s hs
  rw [exit_with_eq]
  exact h s.trace hs

theorem inv_exit_if {I : List Event → Prop} {cond callback : Bool} {message : String}
    {l : Locals} {Qr Qt : List Event → Prop}
    (h : ∀ t, I t → Qr (t ++ exit_events callback message l)) :
    Triple I (exit_if cond callback message l) (fun _ => I) Qr Qt := by
  unfold exit_if
  exact inv_only_if (triple_exit_with h)

theorem inv_add_tokens_to_context {I : List Event → Prop} {w : World} {N : Int}
    {Qr Qt : List Event → Prop} (hI : Stable I) (ht : ∀ t, I t → Qt t) :
    Triple I (add_tokens_to_context w N) (fun _ => I) Qr Qt := by
  unfold add_tokens_to_context
  repeat' first
    | intro _
    | exact inv_pure
    | exact inv_ext (fun t h => hI.push t _ rfl h) ht
    | apply inv_bind
    | split

theorem inv_add_images {I : List Event → Prop} {w : World} {several : Bool}
    {Qr Qt : List Event → Prop} (hI : Stable I) (ht : ∀ t, I t → Qt t)
    (images : List Bool) :
    ∀ idx, Triple I (add_images w several images idx) (fun _ => I) Qr Qt := by
  induction images with
  | nil => intro idx; exact inv_pure
  | cons embedding rest ih =>
    intro idx
    unfold add_images
    apply inv_bind
    · apply inv_only_if
      repeat' first
        | intro _
        | exact inv_emit (fun t h => hI.push t _ rfl h)
        | exact inv_ext (fun t h => hI.push t _ rfl h) ht
        | apply inv_only_if
        | apply inv_bind
    · intro _
      exact ih _

theorem inv_load_image_embeddings {I : List Event → Prop} {w : World}
    {callback should_load_clip : Bool} {mmproj : String} {held : Locals}
    {Qr Qt : List Event → Prop} (hI : Stable I) (ht : ∀ t, I t → Qt t)
    (hx : ∀ message t, I t → Qr (t ++ exit_events callback message held)) :
    Triple I (load_image_embeddings w callback should_load_clip mmproj held)
      (fun _ => I) Qr Qt := by
  unfold load_image_embeddings
  split
  · repeat' first
      | intro _
      | exact inv_pure
      | exact inv_emit (fun t h => hI.push t _ rfl h)
      | exact inv_ext (fun t h => hI.push t _ rfl h) ht
      | exact inv_exit_if (hx _)
      | apply inv_bind
  · exact inv_pure

theorem copy_to_c_result_eq (result : String) (n : Int) (s : St) :
    copy_to_c_result result n s
      = .next (strncpy result (to_size_t (n - 1)))
          ⟨s.model_loading_in_progress,
            s.trace ++ (if to_size_t (n - 1) ≥ to_size_t n then [.out_of_bounds_write] else []),
            s.ext_calls⟩ := by
  unfold copy_to_c_result
  change M.bind (only_if _ _) _ s = _
  by_cases h : to_size_t (n - 1) ≥ to_size_t n <;>
    simp [M.bind, only_if, emit, pure, h]


/-! ## Callbacks of a growing trace -/

theorem callbacks_append (t u : List Event) :
    callbacks (t ++ u) = callbacks t ++ callbacks u := by
  simp [callbacks, List.filterMap_append]

theorem callbacks_of_silent (e : Event) (he : e.silent = true) : callbacks [e] = [] := by
  cases e <;> simp [callbacks, Event.silent] at he ⊢

theorem plain_silent (e : Event) (he : e.plain = true) : e.silent = true := by
  cases e <;> simp [Event.plain, Event.silent] at he ⊢

theorem plain_not_generating_log (e : Event) (he : e.plain = true) :
    e ≠ .log .generation_cancelled := by
  intro h
  rw [h] at he
  simp [Event.plain] at he

theorem callbacks_of_plain_list (es : List Event) (h : ∀ e ∈ es, e.plain = true) :
    callbacks es = [] := by
  induction es with
  | nil => rfl
  | cons e rest ih =>
    have h1 := callbacks_of_silent e (plain_silent e (h e (List.mem_cons_self _ _)))
    have h2 := ih (fun x hx => h x (List.mem_cons_of_mem _ hx))
    have : e :: rest = [e] ++ rest := rfl
    rw [this, callbacks_append, h1, h2]
    rfl

theorem silent_ne_cancelled (e : Event) (he : e.silent = true) :
    e ≠ .log .generation_cancelled := by
  intro h
  rw [h] at he
  simp [Event.silent] at he

theorem silent_ne_complete (e : Event) (he : e.silent = true) :
    e ≠ .log .loop_complete := by
  intro h
  rw [h] at he
  simp [Event.silent] at he

theorem converted_append (t u : List Event) :
    converted_tokens (t ++ u) = converted_tokens t ++ converted_tokens u := by
  simp [converted_tokens, List.filterMap_append]

theorem converted_of_silent (e : Event) (he : e.silent = true) :
    converted_tokens [e] = [] := by
  cases e <;> simp [converted_tokens, Event.silent] at he ⊢

theorem converted_of_plain_list (es : List Event) (h : ∀ e ∈ es, e.plain = true) :
    converted_tokens es = [] := by
  induction es with
  | nil => rfl
  | cons e rest ih =>
    have h1 := converted_of_silent e (plain_silent e (h e (List.mem_cons_self _ _)))
    have h2 := ih (fun x hx => h x (List.mem_cons_of_mem _ hx))
    have : e :: rest = [e] ++ rest := rfl
    rw [this, converted_append, h1, h2]
    rfl

theorem converted_of_not_generating (es : List Event)
    (h : ∀ e ∈ es, e.generating = false) : converted_tokens es = [] := by
  induction es with
  | nil => rfl
  | cons e rest ih =>
    have h1 : converted_tokens [e] = [] := by
      have := h e (List.mem_cons_self _ _)
      cases e <;> simp [converted_tokens, Event.generating] at this ⊢
    have h2 := ih (fun x hx => h x (List.mem_cons_of_mem _ hx))
    have : e :: rest = [e] ++ rest := rfl
    rw [this, converted_append, h1, h2]
    rfl

theorem ph_push {w : World} {E : Int} {c : List (String × Bool)} {n : List Int}
    {t : List Event} (e : Event) (he : e.silent = true) (h : Ph w E c n t) :
    Ph w E c n (t ++ [e]) := by
  obtain ⟨hs, hc, hn, hcan, hcom⟩ := h
  refine ⟨hs, ?_, ?_, ?_, ?_⟩
  · rw [callbacks_append, callbacks_of_silent e he, hc]; simp
  · rw [converted_append, converted_of_silent e he, hn]; simp
  · simp only [List.mem_append, List.mem_singleton, not_or]
    exact ⟨hcan, fun hh => silent_ne_cancelled e he hh.symm⟩
  · simp only [List.mem_append, List.mem_singleton, not_or]
    exact ⟨hcom, fun hh => silent_ne_complete e he hh.symm⟩

theorem ph_stable (w : World) (E : Int) (c : List (String × Bool)) (n : List Int) :
    Stable (Ph w E c n) :=
  ⟨fun _ e he h => ph_push e (plain_silent e he) h⟩

theorem ph_unfinished {w : World} {E : Int} {c : List (String × Bool)} {n : List Int} :
    ∀ t, Ph w E c n t → Unfinished w E t :=
  fun _ h => Or.inl ⟨c, n, h⟩

theorem not_mem_of_plain_list (es : List Event) (h : ∀ e ∈ es, e.plain = true)
    (x : Event) (hx : x.plain = false) : x ∉ es := by
  intro hm
  have := h x hm
  rw [hx] at this
  cases this

theorem ph_exit {w : World} {E : Int} {c : List (String × Bool)} {n : List Int}
    {message : String} {l : Locals} :
    ∀ t, Ph w E c n t → Aborted w E (t ++ exit_events true message l) := by
  intro t h
  obtain ⟨hs, hc, hn, hcan, hcom⟩ := h
  have hp := cleanup_events_plain l
  have hconv : converted_tokens (t ++ exit_events true message l) = n := by
    simp only [exit_events, if_true, converted_append, hn, converted_of_plain_list _ hp]
    simp [converted_tokens]
  refine ⟨?_, ?_, c, message, ?_, Or.inl ?_⟩
  · simp only [exit_events, if_true, List.mem_append, List.mem_singleton, not_or]
    exact ⟨hcan, by simp, not_mem_of_plain_list _ hp _ rfl⟩
  · simp only [exit_events, if_true, List.mem_append, List.mem_singleton, not_or]
    exact ⟨hcom, by simp, not_mem_of_plain_list _ hp _ rfl⟩
  · simp only [exit_events, if_true, callbacks_append, hc, callbacks_of_plain_list _ hp]
    simp [callbacks]
  · rw [hconv]; exact hs

theorem streaming_start (w : World) (E : Int) : Streaming w E [("", false)] [] :=
  Or.inr ⟨0, fun _ h => absurd h (Nat.not_lt_zero _), rfl, rfl⟩

theorem start_rule {w : World} {E : Int} {f : Unit → M Unit}
    {Qn : Unit → List Event → Prop}
    (hf : ∀ a, Triple (Ph w E [("", false)] []) (f a) Qn (Aborted w E) (Unfinished w E)) :
    Triple (Ph w E [] []) (invoke true "" false >>= f) Qn (Aborted w E) (Unfinished w E) := by
  refine triple_bind (R := fun _ => Ph w E [("", false)] []) ?_ hf
  unfold invoke
  simp only [if_true]
  apply triple_emit
  intro t h
  obtain ⟨_, hc, hn, hcan, hcom⟩ := h
  refine ⟨streaming_start w E, ?_, ?_, ?_, ?_⟩
  · rw [callbacks_append, hc]; rfl
  · rw [converted_append, hn]; rfl
  · simp only [List.mem_append, List.mem_singleton, not_or]
    exact ⟨hcan, by simp⟩
  · simp only [List.mem_append, List.mem_singleton, not_or]
    exact ⟨hcom, by simp⟩

theorem inv_result_reserve {I : List Event → Prop} {w : World} {n : Int}
    {Qr Qt : List Event → Prop} (hI : Stable I) (ht : ∀ t, I t → Qt t) :
    Triple I (result_reserve w n) (fun _ => I) Qr Qt := by
  unfold result_reserve
  split
  · exact triple_bind (inv_emit (fun t h => hI.push t _ rfl h))
      (fun _ => triple_throw_exn ht)
  · exact inv_ext (fun t h => hI.push t _ rfl h) ht

/-! ## The buffer copy of a short result -/

theorem short_result_copy (r : String) (E : Int) (h : r.length < to_size_t E) :
    strncpy r (to_size_t (E - 1)) = r ∧ ¬ (to_size_t (E - 1) ≥ to_size_t E) := by
  have hlen : r.data.length < to_size_t E := h
  have h1 : to_size_t (E - 1) + 1 = to_size_t E := by
    unfold to_size_t at hlen ⊢
    omega
  constructor
  · unfold strncpy
    rw [List.take_of_length_le (by omega)]
  · omega


/-! ## The generation loop and the callbacks -/

theorem callbacks_log (line : LogLine) : callbacks [Event.log line] = [] := rfl

theorem samples_succ (w : World) (k : Nat) :
    samples w (k + 1) = samples w k ++ [w.sample k] := by
  simp [samples, List.range_succ]

theorem loop_exit {w : World} {E : Int} (e : Event) (he : e.silent = true) (k : Nat)
    (hdef : pieces_defined w k) :
    Triple (Ph w E (("", false) :: updates w E k) (samples w k))
      (emit e >>= fun _ => (pure (accumulated w k) : M String))
      (fun result t => LoopDone w E result t) (Aborted w E) (Unfinished w E) := by
  refine triple_bind (inv_emit (fun t h => ph_push e he h)) (fun _ => triple_pure ?_)
  intro t h
  exact ⟨k, hdef, rfl, h.2.1, Or.inl h.2.2.1, h.2.2.2.2, Or.inl h.2.2.2.1⟩

theorem loop_exit_failed {w : World} {E : Int} (k : Nat)
    (hnone : w.token_to_piece (w.sample k) = none) :
    Triple (Converting w E k)
      (emit (.log .token_to_text_failed) >>= fun _ => (pure (accumulated w k) : M String))
      (fun result t => LoopDone w E result t) (Aborted w E) (Unfinished w E) := by
  refine triple_bind (R := fun _ t => LoopDone w E (accumulated w k) t) (triple_emit ?_)
    (fun _ => triple_pure (fun _ h => h))
  rintro t ⟨hdef, hc, hn, hcan, hcom⟩
  refine ⟨k, hdef, rfl, ?_, Or.inr ⟨?_, hnone⟩, ?_, Or.inl ?_⟩
  · rw [callbacks_append, callbacks_log, hc]; simp
  · rw [converted_append, hn]; simp [converted_tokens]
  · simp only [List.mem_append, List.mem_singleton, not_or]
    exact ⟨hcom, by simp⟩
  · simp only [List.mem_append, List.mem_singleton, not_or]
    exact ⟨hcan, by simp⟩

theorem loop_exit_cancelled {w : World} {E : Int} (k : Nat) (hdef : pieces_defined w k) :
    Triple (Ph w E (("", false) :: updates w E k) (samples w k))
      (emit (.log .generation_cancelled) >>= fun _ => (pure (accumulated w k) : M String))
      (fun result t => LoopDone w E result t) (Aborted w E) (Unfinished w E) := by
  refine triple_bind
    (R := fun _ t => LoopDone w E (accumulated w k) t) (triple_emit ?_)
    (fun _ => triple_pure (fun _ h => h))
  intro t h
  refine ⟨k, hdef, rfl, ?_, Or.inl ?_, ?_, Or.inr ⟨t, rfl, h.2.2.2.1⟩⟩
  · rw [callbacks_append, callbacks_log, h.2.1]; simp
  · rw [converted_append, h.2.2.1]; simp [converted_tokens]
  · simp only [List.mem_append, List.mem_singleton, not_or]
    exact ⟨h.2.2.2.2, by simp⟩

theorem convert_rule {w : World} {E : Int} (k : Nat) (hdef : pieces_defined w k) :
    Triple (Ph w E (("", false) :: updates w E k) (samples w k))
      (ext w (.llama_token_to_piece (w.sample k)))
      (fun _ => Converting w E k)
      (Aborted w E) (Unfinished w E) := by
  have key : ∀ t, Ph w E (("", false) :: updates w E k) (samples w k) t →
      Converting w E k (t ++ [.llama_token_to_piece (w.sample k)]) := by
    rintro t ⟨_, hc, hn, hcan, hcom⟩
    refine ⟨hdef, ?_, ?_, ?_, ?_⟩
    · rw [callbacks_append, hc]; simp [callbacks]
    · rw [converted_append, hn, samples_succ]; simp [converted_tokens]
    · simp only [List.mem_append, List.mem_singleton, not_or]
      exact ⟨hcan, by simp⟩
    · simp only [List.mem_append, List.mem_singleton, not_or]
      exact ⟨hcom, by simp⟩
  exact triple_ext_faulty key
    (fun hfault t h => Or.inr ⟨_, hfault, k, t, rfl, rfl, key t h⟩)

theorem triple_copy_to_c_result {P : List Event → Prop} {result : String} {n : Int}
    {Qn : String → List Event → Prop} {Qr Qt : List Event → Prop}
    (h : ∀ t, P t → Qn (strncpy result (to_size_t (n - 1)))
      (t ++ (if to_size_t (n - 1) ≥ to_size_t n then [.out_of_bounds_write] else []))) :
    Triple P (copy_to_c_result result n) Qn Qr Qt := by
  constructor
  intro s hs
  rw [copy_to_c_result_eq]
  exact h s.trace hs

theorem send_update_rule {w : World} {E : Int} (k : Nat) (hdef : pieces_defined w (k + 1)) :
    Triple (Converting w E k)
      (send_update true (accumulated w (k + 1)) E)
      (fun _ => Ph w E (("", false) :: updates w E (k + 1)) (samples w (k + 1)))
      (Aborted w E) (Unfinished w E) := by
  unfold send_update only_if
  simp only [if_true]
  by_cases hlen : (accumulated w (k + 1)).length < to_size_t E
  · rw [if_pos hlen]
    obtain ⟨hcopy, hin⟩ := short_result_copy _ E hlen
    refine triple_bind
      (R := fun c t => c = accumulated w (k + 1) ∧ Converting w E k t)
      (triple_copy_to_c_result ?_) (fun c => triple_emit ?_)
    · intro t h
      rw [if_neg hin, List.append_nil]
      exact ⟨hcopy, h⟩
    · rintro t ⟨hc1, _, hc, hn, hcan, hcom⟩
      refine ⟨Or.inr ⟨k + 1, hdef, rfl, rfl⟩, ?_, ?_, ?_, ?_⟩
      · rw [callbacks_append, hc, hc1]
        simp [updates, hlen, callbacks]
      · rw [converted_append, hn]; simp [converted_tokens]
      · simp only [List.mem_append, List.mem_singleton, not_or]
        exact ⟨hcan, by simp⟩
      · simp only [List.mem_append, List.mem_singleton, not_or]
        exact ⟨hcom, by simp⟩
  · rw [if_neg hlen]
    apply triple_emit
    rintro t ⟨_, hc, hn, hcan, hcom⟩
    refine ⟨Or.inr ⟨k + 1, hdef, rfl, rfl⟩, ?_, ?_, ?_, ?_⟩
    · rw [callbacks_append, callbacks_log, hc]
      simp [updates, hlen]
    · rw [converted_append, hn]; simp [converted_tokens]
    · simp only [List.mem_append, List.mem_singleton, not_or]
      exact ⟨hcan, by simp⟩
    · simp only [List.mem_append, List.mem_singleton, not_or]
      exact ⟨hcom, by simp⟩

theorem ph_gen_loop {w : World} {E : Int} (request_id n_max_tokens : Int) (fuel : Nat) :
    ∀ (k : Nat) (n_gen : Int), pieces_defined w k →
      Triple (Ph w E (("", false) :: updates w E k) (samples w k))
        (gen_loop w request_id true n_max_tokens E fuel k n_gen (accumulated w k) (w.sample k))
        (fun result t => LoopDone w E result t) (Aborted w E) (Unfinished w E) := by
  induction fuel with
  | zero =>
    intro k n_gen hdef
    unfold gen_loop
    exact loop_exit _ (by rfl) k hdef
  | succ fuel ih =>
    intro k n_gen hdef
    unfold gen_loop
    dsimp only
    refine inv_bind (inv_ext (fun t h => ph_push _ rfl h) ph_unfinished) (fun _ => ?_)
    split
    · exact loop_exit _ (by rfl) k hdef
    · refine triple_bind (convert_rule k hdef) (fun _ => ?_)
      split
      · rename_i hnone
        exact loop_exit_failed k hnone
      · rename_i piece hpiece
        have hacc : accumulated w k ++ piece = accumulated w (k + 1) := by
          simp [accumulated, hpiece]
        have hdef1 : pieces_defined w (k + 1) := by
          intro j hj
          rcases Nat.lt_succ_iff_lt_or_eq.mp hj with h | h
          · exact hdef j h
          · rw [h, hpiece]; rfl
        rw [hacc]
        refine triple_bind (send_update_rule k hdef1) (fun _ => ?_)
        refine inv_bind (inv_ext (fun t h => ph_push _ rfl h) ph_unfinished) (fun _ => ?_)
        split
        · exact loop_exit _ (by rfl) (k + 1) hdef1
        · refine inv_bind (inv_ext (fun t h => ph_push _ rfl h) ph_unfinished) (fun _ => ?_)
          split
          · exact loop_exit _ (by rfl) (k + 1) hdef1
          · split
            · exact loop_exit _ (by rfl) (k + 1) hdef1
            · refine inv_bind (inv_ext (fun t h => ph_push _ rfl h) ph_unfinished)
                (fun _ => ?_)
              split
              · exact loop_exit_cancelled (k + 1) hdef1
              · exact ih (k + 1) (n_gen + 1) hdef1


/-! ## After the loop -/

theorem bind_apply {α β : Type} (m : M α) (f : α → M β) (s : St) :
    (m >>= f) s = M.bind m f s := rfl

theorem cleanup_events_quiet (l : Locals) :
    callbacks (cleanup_events l) = [] ∧
    (∀ e ∈ cleanup_events l, e.generating = false) ∧
    Event.log .generation_cancelled ∉ cleanup_events l := by
  obtain ⟨c, m, p, r⟩ := l
  cases c <;> cases m <;> cases p <;> cases r <;>
    simp [cleanup_events, callbacks, Event.generating]

theorem final_rule {w : World} {E : Int} (result : String) (held : Locals) :
    Triple (LoopDone w E result)
      (do emit (.log .loop_complete)
          only_if (!decide (result.length < to_size_t E)) (emit (.log .result_exceeded_size))
          let c_result ← copy_to_c_result result E
          final_callback true c_result result
          emit (.log .cleaning_up)
          cleanup held
          emit (.log .cleaned_up))
      (fun _ => Completed w E) (Aborted w E) (Unfinished w E) := by
  constructor
  intro s hs
  obtain ⟨k, hdef, hres, hc, hn, hcom, hcan⟩ := hs
  obtain ⟨hq1, hq2, hq3⟩ := cleanup_events_quiet held
  have key : (do emit (.log .loop_complete)
                 only_if (!decide (result.length < to_size_t E))
                   (emit (.log .result_exceeded_size))
                 let c_result ← copy_to_c_result result E
                 final_callback true c_result result
                 emit (.log .cleaning_up)
                 cleanup held
                 emit (.log .cleaned_up) : M Unit) s
      = .next () ⟨false, s.trace ++
          ([.log .loop_complete] ++
           (if result.length < to_size_t E then [] else [.log .result_exceeded_size]) ++
           (if to_size_t (E - 1) ≥ to_size_t E then [.out_of_bounds_write] else []) ++
           [.log .invoking_final_callback,
            .callback (strncpy result (to_size_t (E - 1))) true,
            .log .final_callback_invoked, .log .cleaning_up] ++
           cleanup_events held ++ [.log .cleaned_up]), s.ext_calls⟩ := by
    by_cases h1 : result.length < to_size_t E <;>
      by_cases h2 : to_size_t (E - 1) ≥ to_size_t E <;>
      simp [bind_apply, M.bind, emit, only_if, copy_to_c_result_eq, final_callback,
        cleanup_eq, h1, h2, pure]
  rw [key]
  subst hres
  refine ⟨k, s.trace, _, rfl, hdef, hc, hn, ?_, ?_, ?_, hcan⟩
  · simp only [callbacks_append, hq1]
    split_ifs <;> rfl
  · intro e he
    simp only [List.mem_append] at he
    rcases he with ((((he | he) | he) | he) | he) | he
    · rw [List.mem_singleton.mp he]; rfl
    · split at he
      · cases he
      · rw [List.mem_singleton.mp he]; rfl
    · split at he
      · rw [List.mem_singleton.mp he]; rfl
      · cases he
    · simp only [List.mem_cons, List.mem_singleton, List.not_mem_nil, or_false] at he
      rcases he with rfl | rfl | rfl | rfl <;> rfl
    · exact hq2 e he
    · rw [List.mem_singleton.mp he]; rfl
  · intro he
    simp only [List.mem_append] at he
    rcases he with ((((he | he) | he) | he) | he) | he
    · simp at he
    · split at he <;> simp at he
    · split at he <;> simp at he
    · simp at he
    · exact hq3 he
    · simp at he


/-! ## The callbacks of a whole run -/

theorem ph_try_body (request : pllama_inference_request) (model_path input : String)
    (w : World) :
    Triple (Ph w (wrap_int (request.max_tokens * 10)) [] [])
      (try_body request model_path input true w)
      (fun _ => Completed w (wrap_int (request.max_tokens * 10)))
      (Aborted w (wrap_int (request.max_tokens * 10)))
      (Unfinished w (wrap_int (request.max_tokens * 10))) := by
  unfold try_body
  dsimp only
  repeat' first
    | intro _
    | apply start_rule
    | exact triple_bind
        (ph_gen_loop _ _ _ 0 0 (fun _ h => absurd h (Nat.not_lt_zero _)))
        (fun result => final_rule result _)
    | exact inv_only_if (triple_bind (inv_emit (fun t h => ph_push _ rfl h))
        (fun _ => triple_exit_with ph_exit))
    | exact inv_ext (fun t h => ph_push _ rfl h) ph_unfinished
    | exact inv_emit (fun t h => ph_push _ rfl h)
    | exact inv_exit_if ph_exit
    | exact inv_only_if (inv_ext (fun t h => ph_push _ rfl h) ph_unfinished)
    | exact inv_only_if (inv_emit (fun t h => ph_push _ rfl h))
    | exact inv_load_image_embeddings (ph_stable _ _ _ _) ph_unfinished (fun _ => ph_exit)
    | exact inv_add_images (ph_stable _ _ _ _) ph_unfinished _ _
    | exact inv_add_tokens_to_context (ph_stable _ _ _ _) ph_unfinished
    | exact inv_result_reserve (ph_stable _ _ _ _) ph_unfinished
    | apply inv_bind


theorem catch_handler_trace (e : Exn) (s : St) :
    ∃ message, (catch_handler true e s).state.trace = s.trace ++ [.callback message true] := by
  cases e with
  | std_exception what => exact ⟨"Unhandled error: " ++ what, rfl⟩
  | other => exact ⟨"Unknown unhandled error occurred", rfl⟩

theorem aborted_of_unfinished {w : World} {E : Int} {t : List Event} (message : String)
    (h : Unfinished w E t) : Aborted w E (t ++ [.callback message true]) := by
  have hconv : converted_tokens (t ++ [.callback message true]) = converted_tokens t := by
    rw [converted_append]; simp [converted_tokens]
  rcases h with ⟨c, n, hs, hc, hn, hcan, hcom⟩ | ⟨c, hfault, k, t1, ht, hck, hdef, hc, hn,
    hcan, hcom⟩
  · refine ⟨?_, ?_, c, message, ?_, Or.inl ?_⟩
    · simp only [List.mem_append, List.mem_singleton, not_or]
      exact ⟨hcan, by simp⟩
    · simp only [List.mem_append, List.mem_singleton, not_or]
      exact ⟨hcom, by simp⟩
    · rw [callbacks_append, hc]; rfl
    · rw [hconv, hn]; exact hs
  · refine ⟨?_, ?_, c, message, ?_,
      Or.inr ⟨t, rfl, hfault, k, t1, ht, hck, hdef, hc, hn, hcan, hcom⟩⟩
    · simp only [List.mem_append, List.mem_singleton, not_or]
      exact ⟨hcan, by simp⟩
    · simp only [List.mem_append, List.mem_singleton, not_or]
      exact ⟨hcom, by simp⟩
    · rw [callbacks_append, hc, hck]; rfl

/-- Every run with a callback either completes its generation loop or ends
before that with streamed callbacks followed by one terminal callback. -/
theorem run_summary (request : pllama_inference_request) (w : World) (flag : Bool) :
    Completed w (wrap_int (request.max_tokens * 10))
      (pllama_inference_sync request true w flag).trace ∨
    Aborted w (wrap_int (request.max_tokens * 10))
      (pllama_inference_sync request true w flag).trace := by
  unfold pllama_inference_sync
  cases flag with
  | true =>
    right
    exact ⟨by simp [Res.state, invoke, emit, reset_loading_flag, bind_apply, M.bind],
      by simp [Res.state, invoke, emit, reset_loading_flag, bind_apply, M.bind],
      [], _, rfl, Or.inl (Or.inl ⟨rfl, rfl⟩)⟩
  | false =>
    simp only [Bool.false_eq_true, if_false]
    split
    · rename_i model_path input _ _
      split
      · right
        exact ⟨by simp [Res.state, invoke, emit, reset_loading_flag, bind_apply, M.bind],
          by simp [Res.state, invoke, emit, reset_loading_flag, bind_apply, M.bind],
          [], _, rfl, Or.inl (Or.inl ⟨rfl, rfl⟩)⟩
      · have hinit : Ph w (wrap_int (request.max_tokens * 10)) [] []
            ([] ++ [Event.ifstream_open model_path]) :=
          ⟨Or.inl ⟨rfl, rfl⟩, rfl, rfl, by simp, by simp⟩
        have h := (ph_try_body request model_path input w).holds
          ⟨true, [] ++ [Event.ifstream_open model_path], 0⟩ hinit
        split
        · rename_i a s2 heq
          rw [heq] at h
          exact Or.inl h
        · rename_i s2 heq
          rw [heq] at h
          exact Or.inr h
        · rename_i e s2 heq
          rw [heq] at h
          obtain ⟨message, hm⟩ := catch_handler_trace e s2
          rw [hm]
          exact Or.inr (aborted_of_unfinished message h)
    · right
      exact ⟨by simp [Res.state, invoke, emit, reset_loading_flag, bind_apply, M.bind],
        by simp [Res.state, invoke, emit, reset_loading_flag, bind_apply, M.bind],
        [], _, rfl, Or.inl (Or.inl ⟨rfl, rfl⟩)⟩


/-! ## The shape of the callback sequence -/

theorem updates_not_done (w : World) (E : Int) :
    ∀ k, ∀ p ∈ updates w E k, p.2 = false := by
  intro k
  induction k with
  | zero => intro p hp; cases hp
  | succ k ih =>
    intro p hp
    unfold updates at hp
    rcases List.mem_append.mp hp with h | h
    · exact ih p h
    · split at h
      · rw [List.mem_singleton.mp h]
      · cases h

theorem streamed_not_done (w : World) (E : Int) (k : Nat) :
    ∀ p ∈ ("", false) :: updates w E k, p.2 = false := by
  intro p hp
  rcases List.mem_cons.mp hp with h | h
  · rw [h]
  · exact updates_not_done w E k p h

theorem text_of_concat (w : World) (tokens : List Int) (token : Int) :
    text_of w (tokens ++ [token])
      = text_of w tokens ++ (w.token_to_piece token).getD "" := by
  simp [text_of, List.foldl_append]

theorem text_of_samples (w : World) : ∀ k, text_of w (samples w k) = accumulated w k := by
  intro k
  induction k with
  | zero => rfl
  | succ k ih => rw [samples_succ, text_of_concat, ih]; rfl

theorem text_of_converted {w : World} {k : Nat} {n : List Int}
    (h : n = samples w k ∨ n = samples w (k + 1) ∧ w.token_to_piece (w.sample k) = none) :
    text_of w n = accumulated w k := by
  rcases h with h | ⟨h, hnone⟩
  · rw [h, text_of_samples]
  · rw [h, samples_succ, text_of_concat, text_of_samples, hnone]
    simp

theorem last_update (w : World) (E : Int) (k : Nat)
    (hlen : (accumulated w k).length < to_size_t E) :
    (("", false) :: updates w E k).getLast? = some (accumulated w k, false) := by
  cases k with
  | zero => rfl
  | succ k =>
    unfold updates
    rw [if_pos hlen, ← List.cons_append, List.getLast?_concat]

/-- What a run whose loop completed looks like from outside: the converted tokens
of the whole trace add up to the accumulated text, and the callbacks are the
streamed ones followed by the terminal one with the buffer copy of that text. -/
theorem completed_view {w : World} {E : Int} {T : List Event} (h : Completed w E T) :
    ∃ k, pieces_defined w k ∧
      (converted_tokens T = samples w k ∨
        converted_tokens T = samples w (k + 1) ∧ w.token_to_piece (w.sample k) = none) ∧
      text_of w (converted_tokens T) = accumulated w k ∧
      callbacks T = (("", false) :: updates w E k) ++
        [(strncpy (accumulated w k) (to_size_t (E - 1)), true)] := by
  obtain ⟨k, t, post, hT, hdef, hc, hn, hpost, hgen, _, _⟩ := h
  have hconv : converted_tokens T = converted_tokens t := by
    rw [hT, converted_append, converted_of_not_generating post hgen, List.append_nil]
  refine ⟨k, hdef, ?_, ?_, ?_⟩
  · rw [hconv]
    exact hn
  · rw [hconv]
    exact text_of_converted hn
  · rw [hT, callbacks_append, hc, hpost]

/-- C13, amended: when the loop stops because the request is found cancelled, no
token is converted, decoded or sampled after that, and the terminal callback
carries the text of all converted tokens cut to `estimated_total_size - 1`
characters; when that text is shorter than `estimated_total_size`, the terminal
text is the whole of it and equals the text of the last done = false callback. -/
theorem C13_cancelled_loop_sends_buffer_copy (request : pllama_inference_request)
    (w : World) (flag : Bool)
    (hcancelled : Event.log .generation_cancelled
      ∈ (pllama_inference_sync request true w flag).trace) :
    ∃ before after streamed,
      (pllama_inference_sync request true w flag).trace
        = before ++ [.log .generation_cancelled] ++ after ∧
      (∀ e ∈ after, e.generating = false) ∧
      callbacks (pllama_inference_sync request true w flag).trace
        = streamed ++
          [(strncpy
              (text_of w (converted_tokens (pllama_inference_sync request true w flag).trace))
              (to_size_t (wrap_int (request.max_tokens * 10) - 1)), true)] ∧
      (∀ p ∈ streamed, p.2 = false) ∧
      ((text_of w (converted_tokens (pllama_inference_sync request true w flag).trace)).length
          < to_size_t (wrap_int (request.max_tokens * 10)) →
        streamed.getLast?
          = some (text_of w
              (converted_tokens (pllama_inference_sync request true w flag).trace), false) ∧
        strncpy
            (text_of w (converted_tokens (pllama_inference_sync request true w flag).trace))
            (to_size_t (wrap_int (request.max_tokens * 10) - 1))
          = text_of w (converted_tokens (pllama_inference_sync request true w flag).trace)) := by
  rcases run_summary request w flag with h | h
  · obtain ⟨k, _, _, htext, hc⟩ := completed_view h
    obtain ⟨k2, t, post, hT, _, _, _, _, hgen, hcanpost, hcan⟩ := h
    have hin : Event.log .generation_cancelled ∈ t := by
      rw [hT] at hcancelled
      rcases List.mem_append.mp hcancelled with h1 | h1
      · exact h1
      · exact absurd h1 hcanpost
    rcases hcan with h1 | ⟨t1, ht1, _⟩
    · exact absurd hin h1
    · refine ⟨t1, post, ("", false) :: updates w (wrap_int (request.max_tokens * 10)) k,
        ?_, hgen, ?_, streamed_not_done w _ k, ?_⟩
      · rw [hT, ht1]
      · rw [htext]; exact hc
      · rw [htext]
        intro hlen
        exact ⟨last_update w _ k hlen, (short_result_copy _ _ hlen).1⟩
  · exact absurd hcancelled h.1

/-- Witness for C13: the run with long token texts that is found cancelled at the
second check inside the loop. -/
theorem C13_cancelled_loop_sends_buffer_copy_witness :
    Event.log .generation_cancelled
      ∈ (pllama_inference_sync example_request true cancelled_at_second_check false).trace ∧
    ∃ before after streamed,
      (pllama_inference_sync example_request true cancelled_at_second_check false).trace
        = before ++ [.log .generation_cancelled] ++ after ∧
      (∀ e ∈ after, e.generating = false) ∧
      callbacks (pllama_inference_sync example_request true cancelled_at_second_check false).trace
        = streamed ++
          [(strncpy
              (text_of cancelled_at_second_check (converted_tokens
                (pllama_inference_sync example_request true cancelled_at_second_check false).trace))
              (to_size_t (wrap_int (example_request.max_tokens * 10) - 1)), true)] ∧
      (∀ p ∈ streamed, p.2 = false) ∧
      ((text_of cancelled_at_second_check (converted_tokens
          (pllama_inference_sync example_request true cancelled_at_second_check false).trace)).length
          < to_size_t (wrap_int (example_request.max_tokens * 10)) →
        streamed.getLast?
          = some (text_of cancelled_at_second_check (converted_tokens
              (pllama_inference_sync example_request true
                cancelled_at_second_check false).trace), false) ∧
        strncpy
            (text_of cancelled_at_second_check (converted_tokens
              (pllama_inference_sync example_request true cancelled_at_second_check false).trace))
            (to_size_t (wrap_int (example_request.max_tokens * 10) - 1))
          = text_of cancelled_at_second_check (converted_tokens
              (pllama_inference_sync example_request true cancelled_at_second_check false).trace)) :=
  ⟨by decide!,
    C13_cancelled_loop_sends_buffer_copy example_request cancelled_at_second_check false
      (by decide!)⟩

/-- C15, amended: for some number `k` of appended tokens, the tokens converted in
the run are the first `k` samples, each of which has a text, or one more whose
conversion did not succeed: it returned no text, or the call threw, the terminal
callback of the handler following it directly. The callbacks before the terminal
one are the start signal followed by `updates`: for each appended token in order
the whole accumulated text, but only when that text is shorter than
`estimated_total_size`; an appended token whose accumulated text has reached that
size gets no callback. A run without any done = false callback converts no token. -/
theorem C15_updates_only_below_buffer_size (request : pllama_inference_request)
    (w : World) (flag : Bool) :
    ∃ k text, pieces_defined w k ∧
      (converted_tokens (pllama_inference_sync request true w flag).trace = samples w k ∨
        converted_tokens (pllama_inference_sync request true w flag).trace
            = samples w (k + 1) ∧
          (w.token_to_piece (w.sample k) = none ∨
            (∃ i, w.fault i ≠ none) ∧
            ∃ t, (pllama_inference_sync request true w flag).trace
              = t ++ [.llama_token_to_piece (w.sample k), .callback text true])) ∧
      (callbacks (pllama_inference_sync request true w flag).trace = [(text, true)] ∧
          converted_tokens (pllama_inference_sync request true w flag).trace = [] ∨
        callbacks (pllama_inference_sync request true w flag).trace
          = ("", false) :: updates w (wrap_int (request.max_tokens * 10)) k
              ++ [(text, true)]) := by
  rcases run_summary request w flag with h | h
  · obtain ⟨k, hdef, hn, _, hc⟩ := completed_view h
    refine ⟨k, _, hdef, ?_, Or.inr hc⟩
    rcases hn with hn | ⟨hn, hnone⟩
    · exact Or.inl hn
    · exact Or.inr ⟨hn, Or.inl hnone⟩
  · obtain ⟨_, _, c, message, hc, hs⟩ := h
    rcases hs with (⟨h1, h2⟩ | ⟨k, hdef, h1, h2⟩) | ⟨t1, ht, hfault, k, t2, ht1, hck, hdef,
      _, hn1, _, _⟩
    · refine ⟨0, message, fun _ hj => absurd hj (Nat.not_lt_zero _), Or.inl ?_,
        Or.inl ⟨?_, h2⟩⟩
      · rw [h2]; rfl
      · rw [hc, h1]; rfl
    · exact ⟨k, message, hdef, Or.inl h2, Or.inr (by rw [hc, h1])⟩
    · refine ⟨k, message, hdef, Or.inr ⟨?_, Or.inr ⟨hfault, t2, ?_⟩⟩, Or.inr ?_⟩
      · rw [ht, converted_append, hn1]; simp [converted_tokens]
      · rw [ht, ht1, List.append_assoc]; rfl
      · rw [hc, hck]

theorem prep_push {t : List Event} (e : Event) (h1 : callbacks [e] = [])
    (h2 : converted_tokens [e] = []) (h3 : e ≠ .llama_sampler_sample)
    (h4 : e ≠ .log .cancelled_before_generation) (h : Preparing t) :
    Preparing (t ++ [e]) := by
  obtain ⟨hc, hn, hs, hl⟩ := h
  refine ⟨?_, ?_, ?_, ?_⟩
  · rw [callbacks_append, hc, h1]; rfl
  · rw [converted_append, hn, h2]; rfl
  · simp only [List.mem_append, List.mem_singleton, not_or]
    exact ⟨hs, fun hh => h3 hh.symm⟩
  · simp only [List.mem_append, List.mem_singleton, not_or]
    exact ⟨hl, fun hh => h4 hh.symm⟩

theorem prep_stable : Stable Preparing :=
  ⟨fun _ e he h =>
    prep_push e (callbacks_of_silent e (plain_silent e he))
      (converted_of_silent e (plain_silent e he))
      (fun hh => by rw [hh] at he; cases he) (fun hh => by rw [hh] at he; cases he) h⟩

theorem prep_throw : ∀ t, Preparing t → Event.log .cancelled_before_generation ∉ t :=
  fun _ h => h.2.2.2

theorem prep_exit {message : String} {l : Locals} :
    ∀ t, Preparing t → CheckpointExit (t ++ exit_events true message l) := by
  intro t h hlog
  exfalso
  have hp := cleanup_events_plain l
  simp only [exit_events, if_true, List.mem_append, List.mem_singleton] at hlog
  rcases hlog with hlog | hlog | hlog
  · exact h.2.2.2 hlog
  · cases hlog
  · exact not_mem_of_plain_list _ hp (.log .cancelled_before_generation) rfl hlog

theorem checkpoint_rule {w : World} {held : Locals} (hcan : w.is_cancelled 0 = true) :
    Triple Preparing
      (only_if (w.is_cancelled 0) (do
        emit (.log .cancelled_before_generation)
        exit_with true "" held))
      (fun _ _ => False) CheckpointExit
      (fun t => Event.log .cancelled_before_generation ∉ t) := by
  unfold only_if
  rw [hcan]
  simp only [if_true]
  refine triple_bind
    (R := fun _ t => ∃ t0, Preparing t0 ∧ t = t0 ++ [.log .cancelled_before_generation])
    (triple_emit (fun t h => ⟨t, h, rfl⟩)) (fun _ => triple_exit_with ?_)
  rintro t ⟨t0, ⟨hc, hn, hs, _⟩, rfl⟩ _
  have hp := cleanup_events_plain held
  refine ⟨?_, ?_, ?_⟩
  · simp only [exit_events, if_true, callbacks_append, hc, callbacks_of_plain_list _ hp]
    rfl
  · simp only [exit_events, if_true, converted_append, hn, converted_of_plain_list _ hp]
    rfl
  · intro hmem
    simp only [exit_events, if_true, List.mem_append, List.mem_singleton] at hmem
    rcases hmem with (hmem | hmem) | hmem | hmem
    · exact hs hmem
    · cases hmem
    · cases hmem
    · exact not_mem_of_plain_list _ hp .llama_sampler_sample rfl hmem

theorem prep_try_body (request : pllama_inference_request) (model_path input : String)
    (w : World) (hcan : w.is_cancelled 0 = true) :
    Triple Preparing (try_body request model_path input true w)
      (fun _ _ => False) CheckpointExit
      (fun t => Event.log .cancelled_before_generation ∉ t) := by
  unfold try_body
  dsimp only
  repeat' first
    | intro _
    | exact triple_bind (checkpoint_rule hcan) (fun _ => triple_of_false)
    | exact inv_ext (fun t h => prep_push _ (by rfl) (by rfl) (by simp) (by simp) h) prep_throw
    | exact inv_emit (fun t h => prep_push _ (by rfl) (by rfl) (by simp) (by simp) h)
    | exact inv_exit_if prep_exit
    | exact inv_only_if
        (inv_ext (fun t h => prep_push _ (by rfl) (by rfl) (by simp) (by simp) h) prep_throw)
    | exact inv_load_image_embeddings prep_stable prep_throw (fun _ => prep_exit)
    | exact inv_add_images prep_stable prep_throw _ _
    | exact inv_add_tokens_to_context prep_stable prep_throw
    | apply inv_bind

/-- A run that logs the cancellation at the checkpoint, in a world where the
registry answers "cancelled" there, makes exactly one callback, the empty string
with done = true, and neither converts nor samples a token. -/
theorem checkpoint_run (request : pllama_inference_request) (w : World) (flag : Bool)
    (hcan : w.is_cancelled 0 = true) :
    CheckpointExit (pllama_inference_sync request true w flag).trace := by
  unfold pllama_inference_sync
  cases flag with
  | true =>
    intro h
    simp [Res.state, invoke, emit, reset_loading_flag, bind_apply, M.bind] at h
  | false =>
    simp only [Bool.false_eq_true, if_false]
    split
    · rename_i model_path input _ _
      split
      · intro h
        simp [Res.state, invoke, emit, reset_loading_flag, bind_apply, M.bind] at h
      · have hinit : Preparing ([] ++ [Event.ifstream_open model_path]) :=
          ⟨rfl, rfl, by simp, by simp⟩
        have h := (prep_try_body request model_path input w hcan).holds
          ⟨true, [] ++ [Event.ifstream_open model_path], 0⟩ hinit
        split
        · rename_i a s2 heq
          rw [heq] at h
          exact h.elim
        · rename_i s2 heq
          rw [heq] at h
          exact h
        · rename_i e s2 heq
          rw [heq] at h
          obtain ⟨message, hm⟩ := catch_handler_trace e s2
          rw [hm]
          intro hlog
          simp only [List.mem_append, List.mem_singleton] at hlog
          rcases hlog with hlog | hlog
          · exact absurd hlog h
          · cases hlog
    · intro h
      simp [Res.state, invoke, emit, reset_loading_flag, bind_apply, M.bind] at h

/-! ## Reaching the checkpoint -/

theorem unqueried_push {request_id : Int} {t : List Event} (e : Event)
    (he : e ≠ .is_cancelled request_id) (h : Event.is_cancelled request_id ∉ t) :
    Event.is_cancelled request_id ∉ t ++ [e] := by
  simp only [List.mem_append, List.mem_singleton, not_or]
  exact ⟨h, fun hh => he hh.symm⟩

theorem unqueried_stable (request_id : Int) :
    Stable (fun t => Event.is_cancelled request_id ∉ t) :=
  ⟨fun _ e he h => unqueried_push e (fun hh => by rw [hh] at he; cases he) h⟩

theorem unqueried_exit {request_id : Int} {message : String} {l : Locals} :
    ∀ t, Event.is_cancelled request_id ∉ t →
      (Event.is_cancelled request_id ∈ t ++ exit_events true message l →
        Event.log .cancelled_before_generation ∈ t ++ exit_events true message l) := by
  intro t h hq
  exfalso
  have hp := cleanup_events_plain l
  simp only [exit_events, if_true, List.mem_append, List.mem_singleton] at hq
  rcases hq with hq | hq | hq
  · exact h hq
  · cases hq
  · exact not_mem_of_plain_list _ hp (.is_cancelled request_id) rfl hq

theorem logged_rule {w : World} {held : Locals} {request_id : Int}
    (hcan : w.is_cancelled 0 = true) :
    Triple (fun _ => True)
      (only_if (w.is_cancelled 0) (do
        emit (.log .cancelled_before_generation)
        exit_with true "" held))
      (fun _ _ => False)
      (fun t => Event.is_cancelled request_id ∈ t →
        Event.log .cancelled_before_generation ∈ t)
      (fun t => Event.is_cancelled request_id ∉ t) := by
  unfold only_if
  rw [hcan]
  simp only [if_true]
  refine triple_bind
    (R := fun _ t => Event.log .cancelled_before_generation ∈ t)
    (triple_emit (fun t _ => by simp)) (fun _ => triple_exit_with ?_)
  intro t h _
  exact List.mem_append_left _ h

theorem reach_try_body (request : pllama_inference_request) (model_path input : String)
    (w : World) (hfault : ∀ k, w.fault k = none) (hcan : w.is_cancelled 0 = true) :
    Triple (fun t => Event.is_cancelled request.request_id ∉ t)
      (try_body request model_path input true w)
      (fun _ _ => False)
      (fun t => Event.is_cancelled request.request_id ∈ t →
        Event.log .cancelled_before_generation ∈ t)
      (fun t => Event.is_cancelled request.request_id ∉ t) := by
  unfold try_body
  dsimp only
  repeat' first
    | intro _
    | exact triple_bind
        (triple_ext_of_no_fault (N := fun _ _ => True) hfault (fun _ _ => trivial))
        (fun _ => triple_bind (logged_rule hcan) (fun _ => triple_of_false))
    | exact inv_ext (fun t h => unqueried_push _ (by simp) h) (fun _ h => h)
    | exact inv_emit (fun t h => unqueried_push _ (by simp) h)
    | exact inv_exit_if unqueried_exit
    | exact inv_only_if (inv_ext (fun t h => unqueried_push _ (by simp) h) (fun _ h => h))
    | exact inv_load_image_embeddings (unqueried_stable _) (fun _ h => h)
        (fun _ => unqueried_exit)
    | exact inv_add_images (unqueried_stable _) (fun _ h => h) _ _
    | exact inv_add_tokens_to_context (unqueried_stable _) (fun _ h => h)
    | apply inv_bind

/-- In a world where no call throws and the registry answers "cancelled" at the
checkpoint, a run that makes the checkpoint query logs the cancellation. -/
theorem reach_run (request : pllama_inference_request) (w : World) (flag : Bool)
    (hfault : ∀ k, w.fault k = none) (hcan : w.is_cancelled 0 = true) :
    Event.is_cancelled request.request_id
        ∈ (pllama_inference_sync request true w flag).trace →
      Event.log .cancelled_before_generation
        ∈ (pllama_inference_sync request true w flag).trace := by
  unfold pllama_inference_sync
  cases flag with
  | true =>
    intro h
    simp [Res.state, invoke, emit, reset_loading_flag, bind_apply, M.bind] at h
  | false =>
    simp only [Bool.false_eq_true, if_false]
    split
    · rename_i model_path input _ _
      split
      · intro h
        simp [Res.state, invoke, emit, reset_loading_flag, bind_apply, M.bind] at h
      · have hinit : Event.is_cancelled request.request_id
            ∉ ([] ++ [Event.ifstream_open model_path]) := by simp
        have h := (reach_try_body request model_path input w hfault hcan).holds
          ⟨true, [] ++ [Event.ifstream_open model_path], 0⟩ hinit
        split
        · rename_i a s2 heq
          rw [heq] at h
          exact h.elim
        · rename_i s2 heq
          rw [heq] at h
          exact h
        · rename_i e s2 heq
          rw [heq] at h
          obtain ⟨message, hm⟩ := catch_handler_trace e s2
          rw [hm]
          intro hq
          simp only [List.mem_append, List.mem_singleton] at hq
          rcases hq with hq | hq
          · exact absurd hq h
          · cases hq
    · intro h
      simp [Res.state, invoke, emit, reset_loading_flag, bind_apply, M.bind] at h

/-- C12: in a world where no call throws, when the run reaches the checkpoint
before generation (it queries the registry for the request id) and the registry
answers "cancelled" there, the callback is invoked exactly once in the whole run,
with the empty string and done = true; no token is converted to text and none is
sampled. -/
theorem C12_cancelled_before_generation (request : pllama_inference_request)
    (w : World) (flag : Bool) (hfault : ∀ k, w.fault k = none)
    (hcan : w.is_cancelled 0 = true)
    (hreach : Event.is_cancelled request.request_id
      ∈ (pllama_inference_sync request true w flag).trace) :
    callbacks (pllama_inference_sync request true w flag).trace = [("", true)] ∧
    converted_tokens (pllama_inference_sync request true w flag).trace = [] ∧
    Event.llama_sampler_sample ∉ (pllama_inference_sync request true w flag).trace :=
  checkpoint_run request w flag hcan (reach_run request w flag hfault hcan hreach)

/-- Witness for C12: the example run in a world whose registry answers "cancelled". -/
theorem C12_cancelled_before_generation_witness :
    (∀ k, cancelled_at_checkpoint.fault k = none) ∧
    cancelled_at_checkpoint.is_cancelled 0 = true ∧
    Event.is_cancelled example_request.request_id
      ∈ (pllama_inference_sync example_request true cancelled_at_checkpoint false).trace ∧
    callbacks (pllama_inference_sync example_request true cancelled_at_checkpoint false).trace
      = [("", true)] ∧
    converted_tokens
      (pllama_inference_sync example_request true cancelled_at_checkpoint false).trace = [] ∧
    Event.llama_sampler_sample
      ∉ (pllama_inference_sync example_request true cancelled_at_checkpoint false).trace :=
  ⟨fun _ => rfl, rfl, by decide!,
    C12_cancelled_before_generation example_request cancelled_at_checkpoint false
      (fun _ => rfl) rfl (by decide!)⟩


/-! ## The sampler configuration -/

theorem sampler_setup_append (t u : List Event) :
    sampler_setup (t ++ u) = sampler_setup t ++ sampler_setup u := by
  simp [sampler_setup]

theorem plain_not_configuring (e : Event) (he : e.plain = true) :
    e.configures_sampler = false := by
  cases e <;> simp [Event.plain, Event.configures_sampler] at he ⊢

theorem frame_stable {I : List Event → Prop}
    (hI : ∀ t e, e.configures_sampler = false → I t → I (t ++ [e])) : Stable I :=
  ⟨fun t e he h => hI t e (plain_not_configuring e he) h⟩

theorem frame_exit {I Qr : List Event → Prop} {callback : Bool} {message : String}
    {l : Locals} (hI : ∀ t e, e.configures_sampler = false → I t → I (t ++ [e]))
    (hr : ∀ t, I t → Qr t) :
    ∀ t, I t → Qr (t ++ exit_events callback message l) := by
  intro t h
  apply hr
  unfold exit_events
  rw [← List.append_assoc]
  apply stable_append (frame_stable hI) _ _ (cleanup_events_plain l)
  cases callback
  · simpa using h
  · exact hI t _ rfl h

theorem frame_invoke {I Qr Qt : List Event → Prop} {callback done : Bool} {text : String}
    (hI : ∀ t e, e.configures_sampler = false → I t → I (t ++ [e])) :
    Triple I (invoke callback text done) (fun _ => I) Qr Qt := by
  unfold invoke
  split
  · exact inv_emit (fun t h => hI t _ rfl h)
  · exact inv_pure

theorem frame_copy {I Qr Qt : List Event → Prop} {result : String} {n : Int}
    (hI : ∀ t e, e.configures_sampler = false → I t → I (t ++ [e])) :
    Triple I (copy_to_c_result result n) (fun _ => I) Qr Qt := by
  apply triple_copy_to_c_result
  intro t h
  split
  · exact hI t _ rfl h
  · simpa using h

theorem frame_send_update {I Qr Qt : List Event → Prop} {callback : Bool}
    {result : String} {n : Int}
    (hI : ∀ t e, e.configures_sampler = false → I t → I (t ++ [e])) :
    Triple I (send_update callback result n) (fun _ => I) Qr Qt := by
  unfold send_update
  apply inv_only_if
  split
  · exact inv_bind (frame_copy hI) (fun _ => inv_emit (fun t h => hI t _ rfl h))
  · exact inv_emit (fun t h => hI t _ rfl h)

theorem frame_final_callback {I Qr Qt : List Event → Prop} {callback : Bool}
    {c_result result : String}
    (hI : ∀ t e, e.configures_sampler = false → I t → I (t ++ [e])) :
    Triple I (final_callback callback c_result result) (fun _ => I) Qr Qt := by
  unfold final_callback
  split
  · exact inv_bind (inv_emit (fun t h => hI t _ rfl h))
      (fun _ => inv_bind (inv_emit (fun t h => hI t _ rfl h))
        (fun _ => inv_emit (fun t h => hI t _ rfl h)))
  · exact inv_emit (fun t h => hI t _ rfl h)

theorem frame_cleanup {I Qr Qt : List Event → Prop} {l : Locals}
    (hI : ∀ t e, e.configures_sampler = false → I t → I (t ++ [e])) :
    Triple I (cleanup l) (fun _ => I) Qr Qt :=
  triple_cleanup (fun t h => stable_append (frame_stable hI) _ t (cleanup_events_plain l) h)

theorem frame_gen_loop {I Qr Qt : List Event → Prop} {w : World} {callback : Bool}
    (request_id n_max_tokens E : Int)
    (hI : ∀ t e, e.configures_sampler = false → I t → I (t ++ [e]))
    (ht : ∀ t, I t → Qt t) (fuel : Nat) :
    ∀ (i : Nat) (n_gen : Int) (result : String) (new_token_id : Int),
      Triple I
        (gen_loop w request_id callback n_max_tokens E fuel i n_gen result new_token_id)
        (fun _ => I) Qr Qt := by
  induction fuel with
  | zero =>
    intro i n_gen result new_token_id
    unfold gen_loop
    exact inv_bind (inv_emit (fun t h => hI t _ rfl h)) (fun _ => inv_pure)
  | succ fuel ih =>
    intro i n_gen result new_token_id
    unfold gen_loop
    dsimp only
    refine inv_bind (inv_ext (fun t h => hI t _ rfl h) ht) (fun _ => ?_)
    split
    · exact inv_bind (inv_emit (fun t h => hI t _ rfl h)) (fun _ => inv_pure)
    · refine inv_bind (inv_ext (fun t h => hI t _ rfl h) ht) (fun _ => ?_)
      split
      · exact inv_bind (inv_emit (fun t h => hI t _ rfl h)) (fun _ => inv_pure)
      · refine inv_bind (frame_send_update hI) (fun _ => ?_)
        refine inv_bind (inv_ext (fun t h => hI t _ rfl h) ht) (fun _ => ?_)
        split
        · exact inv_bind (inv_emit (fun t h => hI t _ rfl h)) (fun _ => inv_pure)
        · refine inv_bind (inv_ext (fun t h => hI t _ rfl h) ht) (fun _ => ?_)
          split
          · exact inv_bind (inv_emit (fun t h => hI t _ rfl h)) (fun _ => inv_pure)
          · split
            · exact inv_bind (inv_emit (fun t h => hI t _ rfl h)) (fun _ => inv_pure)
            · refine inv_bind (inv_ext (fun t h => hI t _ rfl h) ht) (fun _ => ?_)
              split
              · exact inv_bind (inv_emit (fun t h => hI t _ rfl h)) (fun _ => inv_pure)
              · exact ih _ _ _ _

theorem setup_push {c : List Event} {t : List Event} (e : Event)
    (he : e.configures_sampler = false) (h : sampler_setup t = c) :
    sampler_setup (t ++ [e]) = c := by
  rw [sampler_setup_append, h]
  simp [sampler_setup, he]

theorem setup_step {c : List Event} {t : List Event} (e : Event)
    (he : e.configures_sampler = true)
    (h : sampler_setup t = c ∧ Event.llama_log_set ∉ t) :
    sampler_setup (t ++ [e]) = c ++ [e] ∧ Event.llama_log_set ∉ t ++ [e] := by
  constructor
  · rw [sampler_setup_append, h.1]
    simp [sampler_setup, he]
  · simp only [List.mem_append, List.mem_singleton, not_or]
    refine ⟨h.2, fun hh => ?_⟩
    rw [← hh] at he
    cases he

theorem setup_wait {c : List Event} {t : List Event} (e : Event)
    (he : e.configures_sampler = false) (hl : e ≠ .llama_log_set)
    (h : sampler_setup t = c ∧ Event.llama_log_set ∉ t) :
    sampler_setup (t ++ [e]) = c ∧ Event.llama_log_set ∉ t ++ [e] := by
  constructor
  · exact setup_push e he h.1
  · simp only [List.mem_append, List.mem_singleton, not_or]
    exact ⟨h.2, fun hh => hl hh.symm⟩

theorem configured_of_beginning (request : pllama_inference_request) {c : List Event}
    (hc : c <+: sampler_chain request) :
    ∀ t, sampler_setup t = c ∧ Event.llama_log_set ∉ t → SamplerConfigured request t := by
  intro t h
  exact ⟨by rw [h.1]; exact hc, fun hl => absurd hl h.2⟩

theorem configured_of_chain (request : pllama_inference_request) :
    ∀ t, sampler_setup t = sampler_chain request → SamplerConfigured request t := by
  intro t h
  exact ⟨by rw [h], fun _ => h⟩

theorem setup_try_body (request : pllama_inference_request) (model_path input : String)
    (callback : Bool) (w : World) :
    Triple (fun t => sampler_setup t = [] ∧ Event.llama_log_set ∉ t)
      (try_body request model_path input callback w)
      (fun _ => SamplerConfigured request) (SamplerConfigured request)
      (SamplerConfigured request) := by
  unfold try_body
  dsimp only
  refine inv_bind (inv_ext (fun t h => setup_wait _ rfl (by simp) h)
    (configured_of_beginning request ⟨sampler_chain request, rfl⟩)) (fun _ => ?_)
  refine inv_bind (inv_ext (fun t h => setup_wait _ rfl (by simp) h)
    (configured_of_beginning request ⟨sampler_chain request, rfl⟩)) (fun _ => ?_)
  refine triple_bind
    (R := fun _ t => sampler_setup t = [.llama_sampler_chain_init]
      ∧ Event.llama_log_set ∉ t)
    (triple_ext (fun t h => setup_step _ (by rfl) h)
      (fun t h => configured_of_beginning request ⟨_, rfl⟩ _ (setup_step _ (by rfl) h)))
    (fun _ => ?_)
  refine triple_bind
    (R := fun _ t => sampler_setup t = [.llama_sampler_chain_init,
        .llama_sampler_init_min_p_one_minus request.top_p]
      ∧ Event.llama_log_set ∉ t)
    (triple_ext (fun t h => setup_step _ (by rfl) h)
      (fun t h => configured_of_beginning request ⟨_, rfl⟩ _ (setup_step _ (by rfl) h)))
    (fun _ => ?_)
  refine triple_bind
    (R := fun _ t => sampler_setup t = [.llama_sampler_chain_init,
        .llama_sampler_init_min_p_one_minus request.top_p,
        .llama_sampler_init_temp request.temperature]
      ∧ Event.llama_log_set ∉ t)
    (triple_ext (fun t h => setup_step _ (by rfl) h)
      (fun t h => configured_of_beginning request ⟨_, rfl⟩ _ (setup_step _ (by rfl) h)))
    (fun _ => ?_)
  refine triple_bind
    (R := fun _ t => sampler_setup t = sampler_chain request)
    (triple_ext (fun t h => (setup_step _ (by rfl) h).1)
      (fun t h => configured_of_chain request _ (setup_step _ (by rfl) h).1))
    (fun _ => ?_)
  have hI : ∀ (t : List Event) (e : Event), e.configures_sampler = false →
      sampler_setup t = sampler_chain request →
      sampler_setup (t ++ [e]) = sampler_chain request :=
    fun t e he h => setup_push e he h
  refine triple_weaken (N := fun _ t => sampler_setup t = sampler_chain request) ?_
    (fun _ h => h) (fun _ => configured_of_chain request) (fun _ h => h) (fun _ h => h)
  repeat' first
    | intro _
    | exact frame_gen_loop _ _ _ hI (configured_of_chain request) _ _ _ _ _
    | exact inv_ext (fun t h => hI t _ rfl h) (configured_of_chain request)
    | exact inv_emit (fun t h => hI t _ rfl h)
    | exact inv_exit_if (frame_exit hI (configured_of_chain request))
    | exact inv_only_if (inv_ext (fun t h => hI t _ rfl h) (configured_of_chain request))
    | exact inv_only_if (inv_emit (fun t h => hI t _ rfl h))
    | exact inv_only_if (triple_bind (inv_emit (fun t h => hI t _ rfl h))
        (fun _ => triple_exit_with (frame_exit hI (configured_of_chain request))))
    | exact frame_invoke hI
    | exact inv_load_image_embeddings (frame_stable hI) (configured_of_chain request)
        (fun _ => frame_exit hI (configured_of_chain request))
    | exact inv_add_images (frame_stable hI) (configured_of_chain request) _ _
    | exact inv_add_tokens_to_context (frame_stable hI) (configured_of_chain request)
    | exact inv_result_reserve (frame_stable hI) (configured_of_chain request)
    | exact frame_copy hI
    | exact frame_final_callback hI
    | exact frame_cleanup hI
    | apply inv_bind

theorem configured_callback (request : pllama_inference_request) {t : List Event}
    (callback : Bool) (message : String) (h : SamplerConfigured request t) :
    SamplerConfigured request (t ++ (if callback then [.callback message true] else [])) := by
  cases callback
  · simpa using h
  · have hs : sampler_setup (t ++ [.callback message true]) = sampler_setup t :=
      setup_push _ rfl rfl
    simp only [if_true]
    refine ⟨by rw [hs]; exact h.1, fun hl => ?_⟩
    rw [hs]
    apply h.2
    simp only [List.mem_append, List.mem_singleton] at hl
    rcases hl with hl | hl
    · exact hl
    · cases hl

theorem catch_handler_adds (callback : Bool) (e : Exn) (s : St) :
    ∃ message, (catch_handler callback e s).state.trace
      = s.trace ++ (if callback then [.callback message true] else []) := by
  cases e with
  | std_exception what =>
    exact ⟨"Unhandled error: " ++ what, by cases callback <;> simp [catch_handler, Res.state,
      invoke, emit, reset_loading_flag, bind_apply, M.bind, pure]⟩
  | other =>
    exact ⟨"Unknown unhandled error occurred", by cases callback <;> simp [catch_handler,
      Res.state, invoke, emit, reset_loading_flag, bind_apply, M.bind, pure]⟩

theorem early_exit_trace (callback : Bool) (message : String) (s : St) :
    ((do invoke callback message true
         reset_loading_flag : M Unit) s).state.trace
      = s.trace ++ (if callback then [.callback message true] else []) := by
  cases callback <;>
    simp [Res.state, invoke, emit, reset_loading_flag, bind_apply, M.bind, pure]

/-- Every run configures the sampler as the source writes it: the chain is begun
in order, and it is complete once the run has gone on to configure logging. -/
theorem setup_run (request : pllama_inference_request) (callback : Bool) (w : World)
    (flag : Bool) :
    SamplerConfigured request (pllama_inference_sync request callback w flag).trace := by
  have h0 : SamplerConfigured request [] := ⟨⟨_, rfl⟩, fun h => by cases h⟩
  unfold pllama_inference_sync
  cases flag with
  | true =>
    simp only [if_true]
    rw [early_exit_trace]
    exact configured_callback request callback _ h0
  | false =>
    simp only [Bool.false_eq_true, if_false]
    split
    · rename_i model_path input _ _
      have hinit : sampler_setup ([] ++ [Event.ifstream_open model_path]) = []
          ∧ Event.llama_log_set ∉ ([] ++ [Event.ifstream_open model_path]) :=
        ⟨rfl, by simp⟩
      split
      · rw [early_exit_trace]
        exact configured_callback request callback _
          (configured_of_beginning request ⟨_, rfl⟩ _ hinit)
      · have h := (setup_try_body request model_path input callback w).holds
          ⟨true, [] ++ [Event.ifstream_open model_path], 0⟩ hinit
        split
        · rename_i a s2 heq
          rw [heq] at h
          exact h
        · rename_i s2 heq
          rw [heq] at h
          exact h
        · rename_i e s2 heq
          rw [heq] at h
          obtain ⟨message, hm⟩ := catch_handler_adds callback e s2
          rw [hm]
          exact configured_callback request callback message h
    · rw [early_exit_trace]
      exact configured_callback request callback _ h0

/-- C20: `penalty_freq`, `penalty_repeat` and `grammar` are inert: changing them in
a request changes nothing in the run, whatever the world does (the sampler calls,
the callbacks and every other action are the same), for `pllama_inference_sync`
and for the exported wrapper; and the sampler configuration of every run is the
chain of the source, `llama_sampler_chain_init`, min-p with `1 - top_p`, the
temperature, sampling with the default seed: begun in that order, and complete
once the run has gone on to configure logging. -/
theorem C20_penalties_and_grammar_inert (request : pllama_inference_request)
    (penalty_freq penalty_repeat : CFloat) (grammar : Option String)
    (callback : Bool) (w : World) (flag : Bool) :
    pllama_inference_sync
        { request with
          penalty_freq := penalty_freq
          penalty_repeat := penalty_repeat
          grammar := grammar } callback w flag
      = pllama_inference_sync request callback w flag ∧
    pllama_inference_export request.request_id request.context_size request.input
        request.max_tokens request.model_path request.model_mmproj_path
        request.num_gpu_layers request.num_threads request.temperature request.top_p
        penalty_freq penalty_repeat grammar request.eos_token callback request.dart_logger
        w flag
      = pllama_inference_sync request callback w flag ∧
    sampler_setup (pllama_inference_sync request callback w flag).trace
      <+: [.llama_sampler_chain_init, .llama_sampler_init_min_p_one_minus request.top_p,
           .llama_sampler_init_temp request.temperature,
           .llama_sampler_init_dist_default_seed] ∧
    (Event.llama_log_set ∈ (pllama_inference_sync request callback w flag).trace →
      sampler_setup (pllama_inference_sync request callback w flag).trace
        = [.llama_sampler_chain_init, .llama_sampler_init_min_p_one_minus request.top_p,
           .llama_sampler_init_temp request.temperature,
           .llama_sampler_init_dist_default_seed]) := by
  have hsetup := setup_run request callback w flag
  cases request
  exact ⟨rfl, rfl, hsetup.1, hsetup.2⟩


/-! ## Termination of the generation loop -/

theorem m_bind_congr {α β : Type} (m : M α) {f g : α → M β} (h : ∀ a, f a = g a) :
    (m >>= f) = (m >>= g) := by
  have : f = g := funext h
  rw [this]

theorem m_ite_congr {α : Type} {c : Prop} [Decidable c] {a a2 b b2 : M α}
    (ha : c → a = a2) (hb : ¬ c → b = b2) :
    (if c then a else b) = (if c then a2 else b2) := by
  by_cases h : c
  · rw [if_pos h, if_pos h]; exact ha h
  · rw [if_neg h, if_neg h]; exact hb h

/-- Unrolling the loop further than `n_max_tokens - n_gen` times (and at least
once) changes nothing: the loop has ended by one of its own exits before. -/
theorem gen_loop_fuel_irrelevant (w : World) (request_id : Int) (callback : Bool)
    (n_max_tokens : Int) (estimated_total_size : Int) (fuel : Nat) :
    ∀ (fuel2 : Nat) (i : Nat) (n_gen : Int) (result : String) (new_token_id : Int),
      1 ≤ fuel → n_max_tokens - n_gen ≤ fuel → 1 ≤ fuel2 → n_max_tokens - n_gen ≤ fuel2 →
      gen_loop w request_id callback n_max_tokens estimated_total_size
          fuel i n_gen result new_token_id
        = gen_loop w request_id callback n_max_tokens estimated_total_size
          fuel2 i n_gen result new_token_id := by
  induction fuel with
  | zero =>
    intro fuel2 i n_gen result new_token_id h1
    omega
  | succ fuel ih =>
    intro fuel2 i n_gen result new_token_id h1 h2 h3 h4
    cases fuel2 with
    | zero => omega
    | succ fuel2 =>
      unfold gen_loop
      dsimp only
      refine m_bind_congr _ (fun _ => ?_)
      refine m_ite_congr (fun _ => rfl) (fun _ => ?_)
      refine m_bind_congr _ (fun _ => ?_)
      cases w.token_to_piece new_token_id with
      | none => rfl
      | some piece =>
        dsimp only
        refine m_bind_congr _ (fun _ => ?_)
        refine m_bind_congr _ (fun _ => ?_)
        refine m_ite_congr (fun _ => rfl) (fun _ => ?_)
        refine m_bind_congr _ (fun _ => ?_)
        refine m_ite_congr (fun _ => rfl) (fun _ => ?_)
        refine m_ite_congr (fun _ => rfl) (fun hgen => ?_)
        refine m_bind_congr _ (fun _ => ?_)
        refine m_ite_congr (fun _ => rfl) (fun _ => ?_)
        apply ih <;> omega

theorem adds_push {t0 : List Event} {c : Nat} {t : List Event} (e : Event)
    (he : e ≠ .llama_get_kv_cache_used_cells) (hm : e ≠ .loop_fuel_exhausted)
    (h : LoopAdds t0 c t) : LoopAdds t0 c (t ++ [e]) := by
  obtain ⟨added, ht, hmark, hc⟩ := h
  refine ⟨added ++ [e], by rw [ht, List.append_assoc], ?_, ?_⟩
  · simp only [List.mem_append, List.mem_singleton, not_or]
    exact ⟨hmark, fun hh => hm hh.symm⟩
  · unfold kv_cell_queries at hc ⊢
    rw [List.count_append, List.count_singleton]
    simp [he, hc]

theorem adds_step {t0 : List Event} {c : Nat} {t : List Event} (h : LoopAdds t0 c t) :
    LoopAdds t0 (c + 1) (t ++ [.llama_get_kv_cache_used_cells]) := by
  obtain ⟨added, ht, hmark, hc⟩ := h
  refine ⟨added ++ [.llama_get_kv_cache_used_cells], by rw [ht, List.append_assoc], ?_, ?_⟩
  · simp only [List.mem_append, List.mem_singleton, not_or]
    exact ⟨hmark, by simp⟩
  · unfold kv_cell_queries at hc ⊢
    rw [List.count_append, List.count_singleton]
    simp [hc]

theorem adds_mono {t0 : List Event} {c c2 : Nat} (hle : c ≤ c2) :
    ∀ t, LoopAdds t0 c t → LoopAdds t0 c2 t := by
  rintro t ⟨added, ht, hmark, hc⟩
  exact ⟨added, ht, hmark, le_trans hc hle⟩

theorem adds_send_update {t0 : List Event} {c : Nat} {callback : Bool} {result : String}
    {n : Int} {Qr Qt : List Event → Prop} :
    Triple (LoopAdds t0 c) (send_update callback result n)
      (fun _ => LoopAdds t0 c) Qr Qt := by
  unfold send_update
  apply inv_only_if
  split
  · refine inv_bind (triple_copy_to_c_result ?_)
      (fun _ => inv_emit (fun t h => adds_push _ (by simp) (by simp) h))
    intro t h
    split
    · exact adds_push _ (by simp) (by simp) h
    · simpa using h
  · exact inv_emit (fun t h => adds_push _ (by simp) (by simp) h)

/-- With at least one unit of fuel and at least `n_max_tokens - n_gen` of it, the
loop ends, whichever way, having added no marker of a cut run and at most
`max 1 (n_max_tokens - n_gen)` cell queries. -/
theorem adds_gen_loop (w : World) (request_id : Int) (callback : Bool)
    (n_max_tokens : Int) (estimated_total_size : Int) (t0 : List Event) (fuel : Nat) :
    ∀ (i : Nat) (n_gen : Int) (result : String) (new_token_id : Int) (c : Nat),
      1 ≤ fuel → n_max_tokens - n_gen ≤ fuel →
      Triple (LoopAdds t0 c)
        (gen_loop w request_id callback n_max_tokens estimated_total_size
          fuel i n_gen result new_token_id)
        (fun _ => LoopAdds t0 (c + (max 1 (n_max_tokens - n_gen)).toNat))
        (LoopAdds t0 (c + (max 1 (n_max_tokens - n_gen)).toNat))
        (LoopAdds t0 (c + (max 1 (n_max_tokens - n_gen)).toNat)) := by
  induction fuel with
  | zero =>
    intro i n_gen result new_token_id c h1
    omega
  | succ fuel ih =>
    intro i n_gen result new_token_id c h1 h2
    have hone : c + 1 ≤ c + (max 1 (n_max_tokens - n_gen)).toNat := by omega
    have hout : ∀ t, LoopAdds t0 (c + 1) t →
        LoopAdds t0 (c + (max 1 (n_max_tokens - n_gen)).toNat) t := adds_mono hone
    have hexit : ∀ (line : LogLine) (r : String),
        Triple (LoopAdds t0 (c + 1))
          (emit (.log line) >>= fun _ => (pure r : M String))
          (fun _ => LoopAdds t0 (c + (max 1 (n_max_tokens - n_gen)).toNat))
          (LoopAdds t0 (c + (max 1 (n_max_tokens - n_gen)).toNat))
          (LoopAdds t0 (c + (max 1 (n_max_tokens - n_gen)).toNat)) :=
      fun line r => triple_bind (R := fun _ => LoopAdds t0 (c + 1))
        (inv_emit (fun t h => adds_push _ (by simp) (by simp) h))
        (fun _ => triple_pure (fun t h => hout t h))
    unfold gen_loop
    dsimp only
    refine triple_bind (R := fun _ => LoopAdds t0 (c + 1))
      (triple_ext (fun t h => adds_step h) (fun t h => hout _ (adds_step h))) (fun _ => ?_)
    split
    · exact hexit _ _
    · refine inv_bind (inv_ext (fun t h => adds_push _ (by simp) (by simp) h) hout)
        (fun _ => ?_)
      split
      · exact hexit _ _
      · refine inv_bind adds_send_update (fun _ => ?_)
        refine inv_bind (inv_ext (fun t h => adds_push _ (by simp) (by simp) h) hout)
          (fun _ => ?_)
        split
        · exact hexit _ _
        · refine inv_bind (inv_ext (fun t h => adds_push _ (by simp) (by simp) h) hout)
            (fun _ => ?_)
          split
          · exact hexit _ _
          · split
            · exact hexit _ _
            · rename_i hgen
              refine inv_bind
                (inv_ext (fun t h => adds_push _ (by simp) (by simp) h) hout) (fun _ => ?_)
              split
              · exact hexit _ _
              · have hle : c + 1 + (max 1 (n_max_tokens - (n_gen + 1))).toNat
                    ≤ c + (max 1 (n_max_tokens - n_gen)).toNat := by omega
                exact triple_weaken (ih _ _ _ _ (c + 1) (by omega) (by omega))
                  (fun _ h => h) (fun _ t h => adds_mono hle t h) (adds_mono hle)
                  (adds_mono hle)

theorem triple_state {α : Type} {P Q : List Event → Prop} {m : M α}
    (h : Triple P m (fun _ => Q) Q Q) (s : St) (hs : P s.trace) : Q (m s).state.trace := by
  have h1 := h.holds s hs
  cases hms : m s with
  | next a s2 => rw [hms] at h1; exact h1
  | returned s2 => rw [hms] at h1; exact h1
  | threw e s2 => rw [hms] at h1; exact h1

/-- C22: the generation loop, entered as the function enters it (`n_gen` = 0),
ends for every world and every request within `max 1 max_tokens` iterations:
unrolled `max 1 max_tokens` times it has ended by one of its own exits, so that
unrolling it further changes nothing, the marker of a cut run is not among the
events it adds, and at most `max 1 max_tokens` of these are cell queries, one
being made at the start of each iteration. -/
theorem C22_loop_ends_within_max_tokens (w : World) (request_id : Int) (callback : Bool)
    (n_max_tokens : Int) (estimated_total_size : Int) (more : Nat) (result : String)
    (new_token_id : Int) (s : St) :
    gen_loop w request_id callback n_max_tokens estimated_total_size
        (loop_bound n_max_tokens + more) 0 0 result new_token_id s
      = gen_loop w request_id callback n_max_tokens estimated_total_size
        (loop_bound n_max_tokens) 0 0 result new_token_id s ∧
    ∃ added,
      (gen_loop w request_id callback n_max_tokens estimated_total_size
        (loop_bound n_max_tokens) 0 0 result new_token_id s).state.trace
        = s.trace ++ added ∧
      Event.loop_fuel_exhausted ∉ added ∧
      kv_cell_queries added ≤ (max 1 n_max_tokens).toNat := by
  have h1 : 1 ≤ loop_bound n_max_tokens := by unfold loop_bound; omega
  have h2 : n_max_tokens - 0 ≤ loop_bound n_max_tokens := by unfold loop_bound; omega
  constructor
  · exact congrFun (gen_loop_fuel_irrelevant w request_id callback n_max_tokens
      estimated_total_size (loop_bound n_max_tokens + more) (loop_bound n_max_tokens)
      0 0 result new_token_id (by omega) (by omega) h1 h2) s
  · have h := triple_state (adds_gen_loop w request_id callback n_max_tokens
      estimated_total_size s.trace (loop_bound n_max_tokens) 0 0 result new_token_id 0
      h1 h2) s ⟨[], by simp, by simp, by simp [kv_cell_queries]⟩
    obtain ⟨added, ht, hmark, hc⟩ := h
    refine ⟨added, ht, hmark, ?_⟩
    rw [Nat.zero_add, Int.sub_zero] at hc
    exact hc


/-! ## End tokens and the conversion to text -/

/-- C21, as the code behaves: the token sampled before the loop is only compared
with -1, the end conditions being tested on the tokens sampled inside the loop;
when that first token is the end of sequence token of the model (token 2, reading
"</s>"), it is converted to text, appended to the result and delivered by the
intermediate and the terminal callback. -/
theorem C21_first_token_converted_unchecked :
    eos_first_world.sample 0 = eos_first_world.model_eos_token ∧
    converted_tokens (pllama_inference_sync example_request true eos_first_world false).trace
      = [2] ∧
    callbacks (pllama_inference_sync example_request true eos_first_world false).trace
      = [("", false), ("</s>", false), ("</s>", true)] := by
  decide!

theorem conv_push {S : List Int → Prop} {t : List Event} (e : Event)
    (he : converted_tokens [e] = []) (h : Converted S t) : Converted S (t ++ [e]) := by
  unfold Converted at h ⊢
  rw [converted_append, he, List.append_nil]
  exact h

theorem conv_stable (S : List Int → Prop) : Stable (Converted S) :=
  ⟨fun _ e he h => conv_push e (converted_of_silent e (plain_silent e he)) h⟩

theorem conv_exit {S : List Int → Prop} {Qr : List Event → Prop} {callback : Bool}
    {message : String} {l : Locals} (hr : ∀ t, Converted S t → Qr t) :
    ∀ t, Converted S t → Qr (t ++ exit_events callback message l) := by
  intro t h
  apply hr
  unfold exit_events
  rw [← List.append_assoc]
  apply stable_append (conv_stable S) _ _ (cleanup_events_plain l)
  cases callback
  · simpa using h
  · exact conv_push _ rfl h

theorem conv_invoke {S : List Int → Prop} {Qr Qt : List Event → Prop}
    {callback done : Bool} {text : String} :
    Triple (Converted S) (invoke callback text done) (fun _ => Converted S) Qr Qt := by
  unfold invoke
  split
  · exact inv_emit (fun t h => conv_push _ rfl h)
  · exact inv_pure

theorem conv_copy {S : List Int → Prop} {Qr Qt : List Event → Prop} {result : String}
    {n : Int} :
    Triple (Converted S) (copy_to_c_result result n) (fun _ => Converted S) Qr Qt := by
  apply triple_copy_to_c_result
  intro t h
  split
  · exact conv_push _ rfl h
  · simpa using h

theorem conv_send_update {S : List Int → Prop} {Qr Qt : List Event → Prop}
    {callback : Bool} {result : String} {n : Int} :
    Triple (Converted S) (send_update callback result n) (fun _ => Converted S) Qr Qt := by
  unfold send_update
  apply inv_only_if
  split
  · exact inv_bind conv_copy (fun _ => inv_emit (fun t h => conv_push _ rfl h))
  · exact inv_emit (fun t h => conv_push _ rfl h)

theorem conv_final_callback {S : List Int → Prop} {Qr Qt : List Event → Prop}
    {callback : Bool} {c_result result : String} :
    Triple (Converted S) (final_callback callback c_result result)
      (fun _ => Converted S) Qr Qt := by
  unfold final_callback
  split
  · exact inv_bind (inv_emit (fun t h => conv_push _ rfl h))
      (fun _ => inv_bind (inv_emit (fun t h => conv_push _ rfl h))
        (fun _ => inv_emit (fun t h => conv_push _ rfl h)))
  · exact inv_emit (fun t h => conv_push _ rfl h)

theorem conv_cleanup {S : List Int → Prop} {Qr Qt : List Event → Prop} {l : Locals} :
    Triple (Converted S) (cleanup l) (fun _ => Converted S) Qr Qt :=
  triple_cleanup (fun t h => stable_append (conv_stable S) _ t (cleanup_events_plain l) h)

theorem samples_tail_mem (w : World) (m : Nat) (token : Int)
    (h : token ∈ (samples w m).tail) : ∃ j, 0 < j ∧ j < m ∧ token = w.sample j := by
  cases m with
  | zero => simp [samples] at h
  | succ m =>
    simp only [samples, List.range_succ_eq_map, List.map_cons, List.tail_cons,
      List.map_map, List.mem_map, List.mem_range, Function.comp] at h
    obtain ⟨i, hi, rfl⟩ := h
    exact ⟨i + 1, by omega, by omega, rfl⟩

theorem checked_later {w : World} {m k : Nat} (hm : m ≤ k + 1) :
    ∀ t, Converted (CheckedUpTo w m k) t → Converted (LaterNotEnd w) t := by
  intro t h token htok
  obtain ⟨hn, hk⟩ := h
  rw [hn] at htok
  obtain ⟨j, hj0, hjm, rfl⟩ := samples_tail_mem w m token htok
  exact hk j hj0 (by omega)

theorem nil_later {w : World} :
    ∀ t, Converted (fun n => n = []) t → Converted (LaterNotEnd w) t := by
  intro t h token htok
  unfold Converted at h
  rw [h] at htok
  cases htok

theorem end_gen_loop (w : World) (request_id : Int) (callback : Bool)
    (n_max_tokens : Int) (E : Int) (fuel : Nat) :
    ∀ (k : Nat) (n_gen : Int) (result : String),
      Triple (Converted (CheckedUpTo w k k))
        (gen_loop w request_id callback n_max_tokens E fuel k n_gen result (w.sample k))
        (fun _ => Converted (LaterNotEnd w)) (Converted (LaterNotEnd w))
        (Converted (LaterNotEnd w)) := by
  induction fuel with
  | zero =>
    intro k n_gen result
    unfold gen_loop
    exact triple_bind (inv_emit (fun t h => conv_push _ rfl h))
      (fun _ => triple_pure (checked_later (by omega)))
  | succ fuel ih =>
    intro k n_gen result
    have hexit : ∀ (m : Nat), m ≤ k + 1 → ∀ (line : LogLine) (r : String),
        Triple (Converted (CheckedUpTo w m k))
          (emit (.log line) >>= fun _ => (pure r : M String))
          (fun _ => Converted (LaterNotEnd w)) (Converted (LaterNotEnd w))
          (Converted (LaterNotEnd w)) :=
      fun m hm line r => triple_bind (inv_emit (fun t h => conv_push _ rfl h))
        (fun _ => triple_pure (checked_later hm))
    have hconvert : ∀ t, Converted (CheckedUpTo w k k) t →
        Converted (CheckedUpTo w (k + 1) k) (t ++ [.llama_token_to_piece (w.sample k)]) := by
      rintro t ⟨hn, hk⟩
      refine ⟨?_, hk⟩
      rw [converted_append, hn, samples_succ]
      rfl
    unfold gen_loop
    dsimp only
    refine inv_bind (inv_ext (fun t h => conv_push _ rfl h) (checked_later (by omega)))
      (fun _ => ?_)
    split
    · exact hexit k (by omega) _ _
    · refine triple_bind (R := fun _ => Converted (CheckedUpTo w (k + 1) k))
        (triple_ext hconvert (fun t h => checked_later (le_refl _) _ (hconvert t h)))
        (fun _ => ?_)
      split
      · exact hexit (k + 1) (le_refl _) _ _
      · refine inv_bind conv_send_update (fun _ => ?_)
        refine inv_bind (inv_ext (fun t h => conv_push _ rfl h) (checked_later (le_refl _)))
          (fun _ => ?_)
        split
        · exact hexit (k + 1) (le_refl _) _ _
        · refine inv_bind
            (inv_ext (fun t h => conv_push _ rfl h) (checked_later (le_refl _)))
            (fun _ => ?_)
          split
          · exact hexit (k + 1) (le_refl _) _ _
          · rename_i hend
            split
            · exact hexit (k + 1) (le_refl _) _ _
            · refine inv_bind
                (inv_ext (fun t h => conv_push _ rfl h) (checked_later (le_refl _)))
                (fun _ => ?_)
              split
              · exact hexit (k + 1) (le_refl _) _ _
              · refine triple_weaken (ih (k + 1) _ _) ?_ (fun _ _ h => h)
                  (fun _ h => h) (fun _ h => h)
                rintro t ⟨hn, hk⟩
                refine ⟨hn, fun j hj0 hj => ?_⟩
                rcases Nat.lt_or_ge j (k + 1) with hlt | hge
                · exact hk j hj0 (by omega)
                · have hj1 : j = k + 1 := by omega
                  rw [hj1]
                  unfold is_end_token
                  simpa using hend

theorem end_try_body (request : pllama_inference_request) (model_path input : String)
    (callback : Bool) (w : World) :
    Triple (Converted (fun n => n = []))
      (try_body request model_path input callback w)
      (fun _ => Converted (LaterNotEnd w)) (Converted (LaterNotEnd w))
      (Converted (LaterNotEnd w)) := by
  unfold try_body
  dsimp only
  repeat' first
    | intro _
    | refine triple_bind
        (triple_weaken (end_gen_loop w _ callback _ _ _ 0 0 "")
          (fun t h => ⟨h, fun j hj0 hj => absurd hj (by omega)⟩)
          (fun _ _ h => h) (fun _ h => h) (fun _ h => h))
        (fun _ => ?_)
    | exact inv_ext (fun t h => conv_push _ (by rfl) h) nil_later
    | exact inv_ext (fun t h => conv_push _ (by rfl) h) (fun _ h => h)
    | exact inv_emit (fun t h => conv_push _ (by rfl) h)
    | exact inv_exit_if (conv_exit nil_later)
    | exact inv_only_if (inv_ext (fun t h => conv_push _ (by rfl) h) nil_later)
    | exact inv_only_if (inv_emit (fun t h => conv_push _ (by rfl) h))
    | exact inv_only_if (triple_bind (inv_emit (fun t h => conv_push _ (by rfl) h))
        (fun _ => triple_exit_with (conv_exit nil_later)))
    | exact conv_invoke
    | exact inv_load_image_embeddings (conv_stable _) nil_later (fun _ => conv_exit nil_later)
    | exact inv_add_images (conv_stable _) nil_later _ _
    | exact inv_add_tokens_to_context (conv_stable _) nil_later
    | exact inv_result_reserve (conv_stable _) nil_later
    | exact conv_copy
    | exact conv_final_callback
    | exact conv_cleanup
    | apply inv_bind

/-- In every run, every token converted to text after the first one has passed the
end conditions: it is neither the end of sequence token of the model nor flagged
as end of generation by the vocabulary. Only the first converted token, the one
sampled before the loop, is not covered. -/
theorem later_tokens_not_end (request : pllama_inference_request) (callback : Bool)
    (w : World) (flag : Bool) :
    ∀ token ∈ (converted_tokens (pllama_inference_sync request callback w flag).trace).tail,
      is_end_token w token = false := by
  have h0 : Converted (fun n => n = []) [] := rfl
  have hcb : ∀ (t : List Event) (message : String), Converted (LaterNotEnd w) t →
      Converted (LaterNotEnd w)
        (t ++ (if callback then [.callback message true] else [])) := by
    intro t message h
    cases callback
    · simpa using h
    · exact conv_push _ rfl h
  change Converted (LaterNotEnd w) (pllama_inference_sync request callback w flag).trace
  unfold pllama_inference_sync
  cases flag with
  | true =>
    simp only [if_true]
    rw [early_exit_trace]
    exact hcb _ _ (nil_later _ h0)
  | false =>
    simp only [Bool.false_eq_true, if_false]
    split
    · rename_i model_path input _ _
      have hinit : Converted (fun n => n = []) ([] ++ [Event.ifstream_open model_path]) :=
        rfl
      split
      · rw [early_exit_trace]
        exact hcb _ _ (nil_later _ hinit)
      · have h := (end_try_body request model_path input callback w).holds
          ⟨true, [] ++ [Event.ifstream_open model_path], 0⟩ hinit
        split
        · rename_i a s2 heq
          rw [heq] at h
          exact h
        · rename_i s2 heq
          rw [heq] at h
          exact h
        · rename_i e s2 heq
          rw [heq] at h
          obtain ⟨message, hm⟩ := catch_handler_adds callback e s2
          rw [hm]
          exact hcb _ _ h
    · rw [early_exit_trace]
      exact hcb _ _ (nil_later _ h0)

end Pllama
